import Mathlib

/-! # Epoch enforcement engine of the Global Indexer

A shallow embedding of
`internal/service/hub/handler/dsl/enforcer/maintain_epoch_data.go` and of the
node queries of `internal/database/dialer/cockroachdb/client_node.go`.

Conventions of the embedding.

* The enum types of the imported protocol packages (`network.Network`,
  `decentralized.Worker`, `decentralized.Platform`, `tag.Tag`, `worker.Status`,
  `rss.Worker`) are integer types in Go; a value is its numeric code. Their
  `String()`/`Name()` tables, the constants `worker.StatusReady`,
  `decentralized.PlatformUnknown`, `rss.RSSHub`, and the two values of package
  `model` read by the code (`RenameWorkerMap`, `DemotionCountBeforeSlashing`)
  are not part of the sources; they are the fields of `Env`.
* `common.Address` is identified with its hexadecimal rendering, so
  `Address.String()` is the identity.
* A Go `map[string]V` is an association list with first-match lookup; a Go
  `map[string]struct{}` is a duplicate-free list. Go leaves the iteration order
  of a map unspecified; the embedding enumerates in insertion order, and the
  theorems below are stated through membership, lookup and counting.
* Goroutines that update shared maps under a mutex are run one after the
  other, in list order.
-/

namespace network
/-- The enum `network.Network`, by numeric code. -/
abbrev Network := Nat
end network

namespace decentralized
/-- The enum `decentralized.Worker`, by numeric code. -/
abbrev Worker := Nat
/-- The enum `decentralized.Platform`, by numeric code. -/
abbrev Platform := Nat
end decentralized

namespace tag
/-- The enum `tag.Tag`, by numeric code. -/
abbrev Tag := Nat
end tag

namespace worker
/-- The enum `worker.Status`, by numeric code. -/
abbrev Status := Nat
end worker

namespace rss
/-- The enum `rss.Worker`, by numeric code. -/
abbrev Worker := Nat
end rss

namespace common
/-- An account address, identified with its hexadecimal rendering. -/
abbrev Address := String
end common

namespace Enforcer

/-- What the code reads from packages that are not part of the sources. -/
structure Env where
  /-- The method `network.Network.String()`. -/
  networkString : network.Network → String
  /-- The method `decentralized.Worker.String()`. -/
  workerString : decentralized.Worker → String
  /-- The method `decentralized.Worker.Name()`. -/
  workerName : decentralized.Worker → String
  /-- The method `decentralized.Platform.String()`. -/
  platformString : decentralized.Platform → String
  /-- The method `tag.Tag.String()`. -/
  tagString : tag.Tag → String
  /-- The constant `worker.StatusReady`. -/
  StatusReady : worker.Status
  /-- The constant `decentralized.PlatformUnknown`. -/
  PlatformUnknown : decentralized.Platform
  /-- The constant `rss.RSSHub`. -/
  RSSHub : rss.Worker
  /-- The variable `model.RenameWorkerMap`, a `map[network.Network]string`. -/
  RenameWorkerMap : network.Network → Option String
  /-- The value `int64(model.DemotionCountBeforeSlashing)`. -/
  DemotionCountBeforeSlashing : Int
  /-- The constant `model.WorkerToNetworksMapKey`. -/
  WorkerToNetworksMapKey : String
  /-- The constant `model.NetworkToWorkersMapKey`. -/
  NetworkToWorkersMapKey : String
  /-- The constant `model.PlatformToWorkersMapKey`. -/
  PlatformToWorkersMapKey : String
  /-- The constant `model.TagToWorkersMapKey`. -/
  TagToWorkersMapKey : String
  /-- The constant `network.Farcaster`. -/
  Farcaster : network.Network
  /-- The constant `decentralized.PlatformFarcaster`. -/
  PlatformFarcaster : decentralized.Platform
  /-- The constant `tag.Social`. -/
  Social : tag.Tag

/-- The struct `DecentralizedWorkerInfo` (with the embedded `WorkerInfo`). -/
structure DecentralizedWorkerInfo where
  Network : network.Network
  Tags : List tag.Tag
  Status : worker.Status
  Worker : decentralized.Worker
  Platform : decentralized.Platform
deriving DecidableEq, Repr

/-- The struct `RSSWorkerInfo`. -/
structure RSSWorkerInfo where
  Network : network.Network
  Tags : List tag.Tag
  Status : worker.Status
  Worker : rss.Worker
deriving DecidableEq, Repr

/-- The struct `FederatedInfo`. -/
structure FederatedInfo where
  Network : network.Network
  Tags : List tag.Tag
  Status : worker.Status
deriving DecidableEq, Repr

/-- The struct `ComponentInfo`: one node's capability report. -/
structure ComponentInfo where
  Decentralized : List DecentralizedWorkerInfo
  RSS : Option RSSWorkerInfo
  Federated : List FederatedInfo
deriving DecidableEq, Repr

/-- The fields of `schema.Stat` that the enforcer reads or writes. `Score` is a
`float64` that the code only copies; it is carried as a numeric code. -/
structure Stat where
  Address : common.Address
  Endpoint : String
  AccessToken : String
  Score : Int
  IsFullNode : Bool
  IsRssNode : Bool
  DecentralizedNetwork : Int
  FederatedNetwork : Int
  Indexer : Int
  Epoch : Int
  EpochInvalidRequest : Int
deriving DecidableEq, Repr

/-- The struct `schema.Worker`: one worker-assignment row. -/
structure WorkerRow where
  EpochID : Int
  Address : common.Address
  Network : String
  Name : String
  IsActive : Bool
deriving DecidableEq, Repr

/-! ## Go maps -/

/-- Lookup `m[k]` in a `map[string]V`. -/
def mapGet {α : Type} : List (String × α) → String → Option α
  | [], _ => none
  | (k', v) :: t, k => if k' = k then some v else mapGet t k

/-- Assignment `m[k] = v` in a `map[string]V`. -/
def mapSet {α : Type} : List (String × α) → String → α → List (String × α)
  | [], k, v => [(k, v)]
  | (k', v') :: t, k, v => if k' = k then (k, v) :: t else (k', v') :: mapSet t k v

/-- Assignment `s[x] = struct{}{}` in a `map[string]struct{}`. -/
def setAdd (s : List String) (x : String) : List String :=
  if x ∈ s then s else s ++ [x]

/-- The two statements
`if _, ok := m[k]; !ok { m[k] = make(map[string]struct{}) }; m[k][x] = struct{}{}`
on a `map[string]map[string]struct{}`. -/
def bucketAdd : List (String × List String) → String → String → List (String × List String)
  | [], k, x => [(k, setAdd [] x)]
  | (k', s) :: t, k, x => if k' = k then (k', setAdd s x) :: t else (k', s) :: bucketAdd t k x

/-- The members of `m[k]`, empty when `k` is not a key. -/
def bucket (m : List (String × List String)) (k : String) : List String :=
  (mapGet m k).getD []

/-! ## determineFullNode -/

/-- The worker name after
`if name, exist := model.RenameWorkerMap[w.Network]; exist { workerName = name }`. -/
def renamedWorker (env : Env) (w : DecentralizedWorkerInfo) : String :=
  match env.RenameWorkerMap w.Network with
  | some name => name
  | none => env.workerString w.Worker

/-- The `lo.Filter` that opens `determineFullNode`: the entries whose status is Ready. -/
def readyWorkers (env : Env) (workers : List DecentralizedWorkerInfo) :
    List DecentralizedWorkerInfo :=
  workers.filter (fun workerInfo => decide (workerInfo.Status = env.StatusReady))

/-- The local `workerToNetworksMap` that `determineFullNode` builds from the
filtered entries. -/
def workerToNetworksOf (env : Env) (workers : List DecentralizedWorkerInfo) :
    List (String × List String) :=
  workers.foldl (fun m w => bucketAdd m (renamedWorker env w) (env.networkString w.Network)) []

/-- The function `determineFullNode`; `topology` is the global
`model.WorkerToNetworksMap` that it reads. -/
def determineFullNode (env : Env) (topology : List (String × List String))
    (workers : List DecentralizedWorkerInfo) : Bool :=
  let workers := readyWorkers env workers
  if workers.length < topology.length then false
  else
    let workerToNetworksMap := workerToNetworksOf env workers
    topology.all (fun entry =>
      match mapGet workerToNetworksMap entry.1 with
      | none => false
      | some networks =>
        if networks.length ≠ entry.2.length then false
        else entry.2.all (fun n => decide (n ∈ networks)))

/-- A topology as `mapTransformAssign` publishes it: the keys of the map are
distinct and no slice lists a name twice. -/
def Published (topology : List (String × List String)) : Prop :=
  (topology.map Prod.fst).Nodup ∧ ∀ entry ∈ topology, entry.2.Nodup

instance (topology : List (String × List String)) : Decidable (Published topology) := by
  unfold Published; infer_instance

/-- The exact-match rule in the words of the specification, on the map built
from the Ready entries of a report. -/
def ExactMatch (env : Env) (topology : List (String × List String))
    (workers : List DecentralizedWorkerInfo) : Prop :=
  ∀ entry ∈ topology,
    ∃ networks, mapGet (workerToNetworksOf env (readyWorkers env workers)) entry.1 = some networks ∧
      networks.length = entry.2.length ∧ ∀ n, n ∈ networks ↔ n ∈ entry.2

/-! ## filterDuplicateWorkers -/

/-- The key `fmt.Sprintf("%s-%s", workerInfo.Network.String(), workerInfo.Worker.String())`. -/
def workerKey (env : Env) (workerInfo : DecentralizedWorkerInfo) : String :=
  env.networkString workerInfo.Network ++ "-" ++ env.workerString workerInfo.Worker

/-- One iteration of the first loop of `filterDuplicateWorkers` on the map `seen`. -/
def seenStep (env : Env) (seen : List (String × DecentralizedWorkerInfo))
    (workerInfo : DecentralizedWorkerInfo) : List (String × DecentralizedWorkerInfo) :=
  match mapGet seen (workerKey env workerInfo) with
  | some existingWorker =>
    if existingWorker.Status = env.StatusReady ∧ workerInfo.Status = env.StatusReady then seen
    else if workerInfo.Status ≠ env.StatusReady then mapSet seen (workerKey env workerInfo) workerInfo
    else seen
  | none => mapSet seen (workerKey env workerInfo) workerInfo

/-- The map `seen` after the first loop of `filterDuplicateWorkers`. -/
def seenOf (env : Env) (workers : List DecentralizedWorkerInfo) :
    List (String × DecentralizedWorkerInfo) :=
  workers.foldl (seenStep env) []

/-- The function `filterDuplicateWorkers`: the values of `seen`. -/
def filterDuplicateWorkers (env : Env) (workers : List DecentralizedWorkerInfo) :
    List DecentralizedWorkerInfo :=
  (seenOf env workers).map Prod.snd

/-- The name tables tell the (network, worker) pairs of the entries apart: two
entries with the same `filterDuplicateWorkers` key have the same network and
the same worker. -/
def KeysSeparate (env : Env) (workers : List DecentralizedWorkerInfo) : Prop :=
  ∀ x ∈ workers, ∀ y ∈ workers, workerKey env x = workerKey env y →
    x.Network = y.Network ∧ x.Worker = y.Worker

instance (env : Env) (workers : List DecentralizedWorkerInfo) :
    Decidable (KeysSeparate env workers) := by
  unfold KeysSeparate; infer_instance

/-- The entries of a list that carry the pair (`n`, `w`). -/
def entriesOf (n : network.Network) (w : decentralized.Worker)
    (workers : List DecentralizedWorkerInfo) : List DecentralizedWorkerInfo :=
  workers.filter (fun e => decide (e.Network = n ∧ e.Worker = w))

/-! ## updateNodeWorkers -/

/-- The function `determineRssNode`; a nil pointer is `none`. -/
def determineRssNode (env : Env) (w : Option RSSWorkerInfo) : Bool :=
  match w with
  | some w => decide (w.Worker = env.RSSHub ∧ w.Status = env.StatusReady)
  | none => false

/-- The function `calculateFederatedNetwork`. -/
def calculateFederatedNetwork (_ : List FederatedInfo) : Int := 0

/-- The function `buildNodeWorkers`; `uint64(epoch)` is the residue modulo `2^64`. -/
def buildNodeWorkers (env : Env) (epoch : Int) (address : common.Address)
    (workerInfo : List DecentralizedWorkerInfo) : List WorkerRow :=
  workerInfo.map (fun w =>
    { EpochID := epoch % 18446744073709551616
      Address := address
      Network := env.networkString w.Network
      Name := env.workerName w.Worker
      IsActive := true })

/-- The keys of the map `uniqueNetworks` of `updateNodeWorkers`. -/
def uniqueNetworks (workers : List DecentralizedWorkerInfo) : List network.Network :=
  workers.foldl (fun s info => if info.Network ∈ s then s else s ++ [info.Network]) []

/-- The body of the goroutine of `updateNodeWorkers` for one `Stat`: the updated
`Stat` and the rows it appends to `workerList`. `topology` is the global
`model.WorkerToNetworksMap`. -/
def evaluateStat (env : Env) (topology : List (String × List String))
    (nodeToDataMap : List (String × ComponentInfo)) (epoch : Int) (stat : Stat) :
    Stat × List WorkerRow :=
  match mapGet nodeToDataMap stat.Address with
  | none => ({ stat with EpochInvalidRequest := env.DemotionCountBeforeSlashing }, [])
  | some workerInfo =>
    let isFull := determineFullNode env topology workerInfo.Decentralized
    let stat1 : Stat :=
      { stat with
        IsFullNode := isFull
        DecentralizedNetwork := ((uniqueNetworks workerInfo.Decentralized).length : Int)
        Indexer := (workerInfo.Decentralized.length : Int)
        IsRssNode := determineRssNode env workerInfo.RSS
        FederatedNetwork := calculateFederatedNetwork workerInfo.Federated }
    let stat2 : Stat :=
      if epoch ≠ stat1.Epoch then { stat1 with Epoch := epoch, EpochInvalidRequest := 0 }
      else stat1
    (stat2, if !isFull then buildNodeWorkers env epoch stat.Address workerInfo.Decentralized
      else [])

/-- The two statements of `database.Client` that the unit of work of
`updateNodeWorkers` issues. Their bodies are not part of the sources; each maps
the worker-assignment table to a new table or fails. -/
structure Database where
  UpdateNodeWorkerActive : List WorkerRow → Except String (List WorkerRow)
  SaveNodeWorkers : List WorkerRow → List WorkerRow → Except String (List WorkerRow)

/-- Modelled from the spec: `WithTransaction` of the storage client is not part
of the sources. Section 4.4 and 7: the unit of work commits atomically, and a
failure of a step aborts the whole transaction (it is rolled back and no
partial state is visible). The result is the error of the unit of work, if any,
and the table after the call. -/
def WithTransaction (table : List WorkerRow)
    (unitOfWork : List WorkerRow → Except String (List WorkerRow)) :
    Except String Unit × List WorkerRow :=
  match unitOfWork table with
  | Except.ok table' => (Except.ok (), table')
  | Except.error err => (Except.error err, table)

/-- The unit of work that `updateNodeWorkers` hands to `WithTransaction`. -/
def saveUnitOfWork (db : Database) (workerList : List WorkerRow) (table : List WorkerRow) :
    Except String (List WorkerRow) :=
  match db.UpdateNodeWorkerActive table with
  | Except.error err => Except.error ("update node worker active: " ++ err)
  | Except.ok table1 =>
    match db.SaveNodeWorkers table1 workerList with
    | Except.error err => Except.error ("save node workers: " ++ err)
    | Except.ok table2 => Except.ok table2

/-- What `updateNodeWorkers` leaves behind: its error, the `Stat`s it has
written through the pointers of `stats`, the `workerList` it built, and the
worker-assignment table. -/
structure UpdateResult where
  err : Except String Unit
  stats : List Stat
  workerList : List WorkerRow
  table : List WorkerRow

/-- The function `updateNodeWorkers`. -/
def updateNodeWorkers (env : Env) (db : Database) (topology : List (String × List String))
    (stats : List Stat) (nodeToDataMap : List (String × ComponentInfo)) (epoch : Int)
    (table : List WorkerRow) : UpdateResult :=
  let evaluated := stats.map (evaluateStat env topology nodeToDataMap epoch)
  let workerList := (evaluated.map Prod.snd).flatten
  let committed := WithTransaction table (saveUnitOfWork db workerList)
  { err := committed.1, stats := evaluated.map Prod.fst, workerList := workerList,
    table := committed.2 }

/-- The invariant of the first loop of `filterDuplicateWorkers`, relating the
map `seen` to the entries processed so far. -/
structure SeenInv (env : Env) (seen : List (String × DecentralizedWorkerInfo))
    (processed : List DecentralizedWorkerInfo) : Prop where
  nodup : (seen.map Prod.fst).Nodup
  key_eq : ∀ p ∈ seen, p.1 = workerKey env p.2
  mem : ∀ p ∈ seen, p.2 ∈ processed
  covered : ∀ x ∈ processed, workerKey env x ∈ seen.map Prod.fst
  status : ∀ p ∈ seen, (p.2.Status ≠ env.StatusReady ↔
    ∃ x ∈ processed, workerKey env x = p.1 ∧ x.Status ≠ env.StatusReady)

/-! ## generateMaps and mapTransformAssign -/

/-- The four maps that `generateMaps` builds next to `nodeToDataMap`. -/
structure TopologyMaps where
  fullNodeWorkerToNetworksMap : List (String × List String)
  networkToWorkersMap : List (String × List String)
  platformToWorkersMap : List (String × List String)
  tagToWorkersMap : List (String × List String)
deriving DecidableEq, Repr

/-- The four maps as `generateMaps` makes them. -/
def TopologyMaps.empty : TopologyMaps := ⟨[], [], [], []⟩

/-- The body of the loop `for _, workerInfo := range workerStatus.Data.Decentralized`
of `generateMaps`, for one entry. -/
def mergeWorker (env : Env) (maps : TopologyMaps) (workerInfo : DecentralizedWorkerInfo) :
    TopologyMaps :=
  if workerInfo.Status ≠ env.StatusReady then maps
  else
    let networkName := env.networkString workerInfo.Network
    let platformName := env.platformString workerInfo.Platform
    let workerName := renamedWorker env workerInfo
    { networkToWorkersMap := bucketAdd maps.networkToWorkersMap networkName workerName
      platformToWorkersMap :=
        if platformName ≠ env.platformString env.PlatformUnknown then
          bucketAdd maps.platformToWorkersMap platformName workerName
        else maps.platformToWorkersMap
      tagToWorkersMap :=
        workerInfo.Tags.foldl (fun m tagX => bucketAdd m (env.tagString tagX) workerName)
          maps.tagToWorkersMap
      fullNodeWorkerToNetworksMap :=
        bucketAdd maps.fullNodeWorkerToNetworksMap workerName networkName }

/-- The merge step of `generateMaps` for one collected report: the entries are
de-duplicated, then merged one by one. -/
def mergeReport (env : Env) (maps : TopologyMaps) (data : ComponentInfo) : TopologyMaps :=
  (filterDuplicateWorkers env data.Decentralized).foldl (mergeWorker env) maps

/-- The merge step for a list of collected reports, one report after the other. -/
def mergeReports (env : Env) (maps : TopologyMaps) (reports : List ComponentInfo) :
    TopologyMaps :=
  reports.foldl (mergeReport env) maps

/-- The reports that were collected: `polled` pairs every `Stat` with the outcome
of its `getNodeWorkerStatus` call, `none` for an error. -/
def collectedReports (polled : List (Stat × Option ComponentInfo)) : List ComponentInfo :=
  polled.filterMap Prod.snd

/-- The `nodeToDataMap` of `generateMaps`: the de-duplicated report of every
node whose call succeeded. -/
def nodeToDataMapOf (env : Env) (polled : List (Stat × Option ComponentInfo)) :
    List (String × ComponentInfo) :=
  polled.foldl (fun m p =>
    match p.2 with
    | none => m
    | some data =>
      mapSet m p.1.Address
        { data with Decentralized := filterDuplicateWorkers env data.Decentralized }) []

/-- The function `generateMaps`. -/
def generateMaps (env : Env) (polled : List (Stat × Option ComponentInfo)) :
    List (String × ComponentInfo) × TopologyMaps :=
  (nodeToDataMapOf env polled, mergeReports env TopologyMaps.empty (collectedReports polled))

/-- The four package-level variables of `model` that hold the published topology. -/
structure Globals where
  WorkerToNetworksMap : List (String × List String)
  NetworkToWorkersMap : List (String × List String)
  PlatformToWorkersMap : List (String × List String)
  TagToWorkersMap : List (String × List String)
deriving DecidableEq, Repr

/-- The closure `transformAndAssign` of `mapTransformAssign`: every set becomes
a slice (`lo.MapToSlice`) under the same key. -/
def transformAndAssign (srcMap : List (String × List String)) : List (String × List String) :=
  srcMap.map (fun kv => (kv.1, kv.2.map (fun s => s)))

/-- The function `mapTransformAssign`: the values of the four globals after it. -/
def mapTransformAssign (maps : TopologyMaps) : Globals :=
  { WorkerToNetworksMap := transformAndAssign maps.fullNodeWorkerToNetworksMap
    NetworkToWorkersMap := transformAndAssign maps.networkToWorkersMap
    PlatformToWorkersMap := transformAndAssign maps.platformToWorkersMap
    TagToWorkersMap := transformAndAssign maps.tagToWorkersMap }

/-- An entry of a de-duplicated collected report whose status is Ready. -/
def ReadyEntry (env : Env) (polled : List (Stat × Option ComponentInfo))
    (e : DecentralizedWorkerInfo) : Prop :=
  ∃ data ∈ collectedReports polled,
    e ∈ filterDuplicateWorkers env data.Decentralized ∧ e.Status = env.StatusReady

/-- The insertions `m[k][x] = struct{}{}` for a list of pairs (`k`, `x`), in order. -/
def addPairs (m : List (String × List String)) (pairs : List (String × String)) :
    List (String × List String) :=
  pairs.foldl (fun m p => bucketAdd m p.1 p.2) m

/-- What one entry inserts into `networkToWorkersMap`. -/
def netPairs (env : Env) (e : DecentralizedWorkerInfo) : List (String × String) :=
  if e.Status ≠ env.StatusReady then [] else [(env.networkString e.Network, renamedWorker env e)]

/-- What one entry inserts into `fullNodeWorkerToNetworksMap`. -/
def fullPairs (env : Env) (e : DecentralizedWorkerInfo) : List (String × String) :=
  if e.Status ≠ env.StatusReady then [] else [(renamedWorker env e, env.networkString e.Network)]

/-- What one entry inserts into `platformToWorkersMap`. -/
def platformPairs (env : Env) (e : DecentralizedWorkerInfo) : List (String × String) :=
  if e.Status ≠ env.StatusReady then []
  else if env.platformString e.Platform ≠ env.platformString env.PlatformUnknown then
    [(env.platformString e.Platform, renamedWorker env e)]
  else []

/-- What one entry inserts into `tagToWorkersMap`. -/
def tagPairs (env : Env) (e : DecentralizedWorkerInfo) : List (String × String) :=
  if e.Status ≠ env.StatusReady then []
  else e.Tags.map (fun tagX => (env.tagString tagX, renamedWorker env e))

/-- The de-duplicated entries of a list of reports, report after report. -/
def entriesOfReports (env : Env) (reports : List ComponentInfo) : List DecentralizedWorkerInfo :=
  reports.flatMap (fun data => filterDuplicateWorkers env data.Decentralized)

/-- Every slice of the map is duplicate-free. -/
def SlicesNodup (m : List (String × List String)) : Prop :=
  ∀ entry ∈ m, entry.2.Nodup

/-! ## Selection sets -/

/-- The struct `redis.Z`, with a string member. -/
structure Z where
  Score : Int
  Member : String
deriving DecidableEq, Repr

/-- The struct `EndpointCache`. -/
structure EndpointCache where
  Endpoint : String
  AccessToken : String
deriving DecidableEq, Repr

/-- The `lo.SliceToMap` of `updateSortedSetForNodeType`: address to endpoint and
credential, for every `Stat` of the authoritative list. -/
def nodesEndpointCachesMapOf (nodeStats : List Stat) : List (String × EndpointCache) :=
  nodeStats.foldl (fun m stat =>
    mapSet m stat.Address { Endpoint := stat.Endpoint, AccessToken := stat.AccessToken }) []

/-- The function `prepareMembers`. Its helper `filterMembersToRemove` is not
part of the sources and is a parameter. -/
def prepareMembers (env : Env)
    (filterMembersToRemove : List Z → List (String × EndpointCache) → List String)
    (members : List Z) (nodesEndpointCachesMap : List (String × EndpointCache))
    (nodeStats : List Stat) : List Z × List String :=
  let membersToRemove := filterMembersToRemove members nodesEndpointCachesMap
  let membersToAdd :=
    nodeStats.foldl (fun membersToAdd stat =>
      if stat.EpochInvalidRequest < env.DemotionCountBeforeSlashing then
        membersToAdd ++ [({ Member := stat.Address, Score := stat.Score } : Z)]
      else membersToAdd) []
  (membersToAdd, membersToRemove)

/-- The order of a `ZREVRANGE` reply: higher score first, ties by member, highest first. -/
def zRevOrder (a b : Z) : Prop :=
  b.Score < a.Score ∨ (a.Score = b.Score ∧ ¬ a.Member < b.Member)

instance : DecidableRel zRevOrder := fun a b => by
  unfold zRevOrder; infer_instance

/-- The cache call `ZRevRangeWithScores(ctx, key, 0, -1)` on a sorted set held
as a map from member to score. -/
def ZRevRangeWithScores (set : List (String × Int)) : List Z :=
  (set.map (fun p => ({ Member := p.1, Score := p.2 } : Z))).insertionSort zRevOrder

/-- The cache call `ZRem`. -/
def ZRem (set : List (String × Int)) (members : List String) : List (String × Int) :=
  set.filter (fun p => decide (p.1 ∉ members))

/-- The cache call `ZAdd`. -/
def ZAdd (set : List (String × Int)) (members : List Z) : List (String × Int) :=
  members.foldl (fun s z => mapSet s z.Member z.Score) set

/-- The function `updateSortedSetForNodeType` on the sorted set of its key, when
the storage and cache calls succeed; `nodeStats` is the list that
`retrieveNodeStatsFromDB` returns. -/
def updateSortedSetForNodeType (env : Env)
    (filterMembersToRemove : List Z → List (String × EndpointCache) → List String)
    (nodeStats : List Stat) (set : List (String × Int)) : List (String × Int) :=
  let nodesEndpointCachesMap := nodesEndpointCachesMapOf nodeStats
  let members := ZRevRangeWithScores set
  let prepared := prepareMembers env filterMembersToRemove members nodesEndpointCachesMap nodeStats
  let set1 := if prepared.2.length > 0 then ZRem set prepared.2 else set
  if prepared.1.length > 0 then ZAdd set1 prepared.1 else set1

/-- Modelled from the spec: `filterMembersToRemove` is called by `prepareMembers`
and its body is not part of the sources. Section 4.5 has it compute the members
to remove, "present in cache, absent or disqualified in the authoritative
list". The call hands it the cached members and the endpoint map of the
authoritative list, which holds an entry for every `Stat` whatever its counter:
it returns the cached members that have no entry in that map. -/
def filterMembersToRemove (members : List Z)
    (nodesEndpointCachesMap : List (String × EndpointCache)) : List String :=
  (members.filter (fun z => (mapGet nodesEndpointCachesMap z.Member).isNone)).map Z.Member

/-- A `Stat` of the examples. -/
def demoStat (address : String) (score epoch invalid : Int) : Stat :=
  { Address := address, Endpoint := "https://" ++ address, AccessToken := "token",
    Score := score, IsFullNode := false, IsRssNode := false, DecentralizedNetwork := 0,
    FederatedNetwork := 0, Indexer := 0, Epoch := epoch, EpochInvalidRequest := invalid }

/-! ## The liveness sweep -/

/-- The fields of a row of the node table that the sweep reads or writes;
`Status` is a `schema.NodeStatus`, by numeric code. -/
structure Node where
  Address : common.Address
  Status : Int
  LastHeartbeatTimestamp : Int
deriving DecidableEq, Repr

/-- The constant `schema.NodeStatusOnline`. -/
def NodeStatusOnline : Int := 1

/-- The constant `schema.NodeStatusOffline`. -/
def NodeStatusOffline : Int := 2

/-- The condition `last_heartbeat_timestamp < ? and status = ?` of the sweep. -/
def staleOnline (lastHeartbeatTimestamp : Int) (node : Node) : Bool :=
  decide (node.LastHeartbeatTimestamp < lastHeartbeatTimestamp ∧ node.Status = NodeStatusOnline)

/-- The number of rows that are Online with a last heartbeat before the cutoff. -/
def staleCount (lastHeartbeatTimestamp : Int) (table : List Node) : Nat :=
  (table.filter (staleOnline lastHeartbeatTimestamp)).length

/-- One statement of the loop: `Update("status", schema.NodeStatusOffline)` on
the rows that match the condition. `Update` is the call that executes the
statement; the `Limit(1000)` is chained after it and reaches no statement, so
every matching row is transitioned. The result is the table and `RowsAffected`. -/
def updateBatch (lastHeartbeatTimestamp : Int) (table : List Node) : List Node × Nat :=
  (table.map (fun node =>
      if staleOnline lastHeartbeatTimestamp node then { node with Status := NodeStatusOffline }
      else node),
    staleCount lastHeartbeatTimestamp table)

/-- The function `UpdateNodesStatusOffline` when no statement fails: it repeats
the statement until one affects no row. `fuel` bounds the number of iterations;
the result is the table and the `RowsAffected` of every iteration in order,
`none` when the fuel is used up. -/
def UpdateNodesStatusOffline (lastHeartbeatTimestamp : Int) : Nat → List Node →
    Option (List Node × List Nat)
  | 0, _ => none
  | fuel + 1, table =>
    let result := updateBatch lastHeartbeatTimestamp table
    if result.2 = 0 then some (result.1, [0])
    else (UpdateNodesStatusOffline lastHeartbeatTimestamp fuel result.1).map
      (fun r => (r.1, result.2 :: r.2))

/-- The quotient `⌈n / k⌉`. -/
def ceilDiv (n k : Nat) : Nat := (n + k - 1) / k

/-! ## maintainNodeWorker -/

/-- The function `setMapCache`. `setError key` is the error that
`cacheClient.Set` returns for `key`, if any; a call that fails writes nothing.
The result is the first error, if any, and the cache. -/
def setMapCache (env : Env) (setError : String → Option String) (globals : Globals)
    (cache : List (String × List (String × List String))) :
    Except String Unit × List (String × List (String × List String)) :=
  let writes := [(env.WorkerToNetworksMapKey, globals.WorkerToNetworksMap),
    (env.NetworkToWorkersMapKey, globals.NetworkToWorkersMap),
    (env.PlatformToWorkersMapKey, globals.PlatformToWorkersMap),
    (env.TagToWorkersMapKey, globals.TagToWorkersMap)]
  let cache' := writes.foldl (fun c kv =>
    match setError kv.1 with
    | none => mapSet c kv.1 kv.2
    | some _ => c) cache
  match writes.filterMap (fun kv => setError kv.1) with
  | [] => (Except.ok (), cache')
  | err :: _ => (Except.error err, cache')

/-- The state that `maintainNodeWorker` works on: the topology variables of
package `model`, the cache, and the worker-assignment table. -/
structure World where
  globals : Globals
  cache : List (String × List (String × List String))
  nodeWorkers : List WorkerRow

/-- What `maintainNodeWorker` leaves behind: its error, the `Stat`s, and the state. -/
structure CycleResult where
  err : Except String Unit
  stats : List Stat
  world : World

/-- The function `maintainNodeWorker`. `polled` pairs every `Stat` with the
outcome of its `getNodeWorkerStatus` call. -/
def maintainNodeWorker (env : Env) (setError : String → Option String) (db : Database)
    (epoch : Int) (polled : List (Stat × Option ComponentInfo)) (world : World) : CycleResult :=
  let generated := generateMaps env polled
  let globals := mapTransformAssign generated.2
  let cached := setMapCache env setError globals world.cache
  match cached.1 with
  | Except.error err =>
    { err := Except.error err, stats := polled.map Prod.fst,
      world := { globals := globals, cache := cached.2, nodeWorkers := world.nodeWorkers } }
  | Except.ok _ =>
    let updated := updateNodeWorkers env db globals.WorkerToNetworksMap (polled.map Prod.fst)
      generated.1 epoch world.nodeWorkers
    { err := updated.err, stats := updated.stats,
      world := { globals := globals, cache := cached.2, nodeWorkers := updated.table } }

/-- An entry of worker `A` (code 1) on network code `n` that is not Ready. -/
def notReadyA (n : network.Network) : DecentralizedWorkerInfo :=
  { Network := n, Tags := [1], Status := 1, Worker := 1, Platform := 1 }

/-- A Ready entry of worker `B` (code 2) on network code `n`. -/
def readyB (n : network.Network) : DecentralizedWorkerInfo :=
  { Network := n, Tags := [2], Status := 3, Worker := 2, Platform := 2 }

/-- A storage client whose insert always fails. -/
def failingInsertDb : Database where
  UpdateNodeWorkerActive := fun table =>
    Except.ok (table.map (fun row => { row with IsActive := false }))
  SaveNodeWorkers := fun _ _ => Except.error "insert failed"

/-- A storage client whose statements succeed: rows are marked inactive, new
rows are appended. -/
def workingDb : Database where
  UpdateNodeWorkerActive := fun table =>
    Except.ok (table.map (fun row => { row with IsActive := false }))
  SaveNodeWorkers := fun table rows => Except.ok (table ++ rows)

/-- A row of the node table for the examples: Online, last heartbeat at `t`. -/
def onlineNode (address : String) (t : Int) : Node :=
  { Address := address, Status := NodeStatusOnline, LastHeartbeatTimestamp := t }

/-- A node table for the examples: `n` rows, all Online with a last heartbeat at 50. -/
def onlineNodes (n : Nat) : List Node :=
  (List.range n).map (fun i => onlineNode ("n" ++ toString i) 50)

/-- A worker-assignment row of the examples: epoch 6, active. -/
def oldRow : WorkerRow :=
  { EpochID := 6, Address := "0xA", Network := "net1", Name := "Worker A", IsActive := true }

/-- A state of the examples: the topology `A ↦ {net1}` is published and cached,
and the assignment table holds `oldRow`. -/
def demoWorld : World :=
  { globals :=
      { WorkerToNetworksMap := [("A", ["net1"])]
        NetworkToWorkersMap := [("net1", ["A"])]
        PlatformToWorkersMap := [("p1", ["A"])]
        TagToWorkersMap := [("t1", ["A"])] }
    cache := [("worker_to_networks", [("A", ["net1"])])]
    nodeWorkers := [oldRow] }

/-- A cache whose every `Set` fails. -/
def cacheDown (_ : String) : Option String := some "cache unavailable"

/-- A cache whose every `Set` succeeds. -/
def cacheUp (_ : String) : Option String := none

/-! ## getNodeWorkerStatus and the collection step -/

/-- The struct `ComponentInfo` as `json.Unmarshal` fills it: the elements of the
slices are pointers, `none` is a nil pointer (a JSON `null`). -/
structure DecodedComponentInfo where
  Decentralized : List (Option DecentralizedWorkerInfo)
  RSS : Option RSSWorkerInfo
  Federated : List (Option FederatedInfo)
deriving DecidableEq, Repr

/-- The struct `WorkerResponse`; `Data` is a pointer, `none` when the document
carries no `data` object. -/
structure WorkerResponse where
  Data : Option DecodedComponentInfo
deriving DecidableEq, Repr

/-- How a call ends: with a value, with an error value, or with a run-time
fault (a nil pointer dereference). -/
inductive Outcome (α : Type) where
  | ok : α → Outcome α
  | err : String → Outcome α
  | fault : Outcome α
deriving DecidableEq, Repr

/-- The loop `for i, w := range response.Data.Decentralized` of
`getNodeWorkerStatus`: it reads `w.Network` of every element and rewrites the
Farcaster entries; `none` is the fault at a nil element. -/
def normalizeDecentralized (env : Env) :
    List (Option DecentralizedWorkerInfo) → Option (List DecentralizedWorkerInfo)
  | [] => some []
  | none :: _ => none
  | some w :: rest =>
    (normalizeDecentralized env rest).map (fun done =>
      (if w.Network = env.Farcaster then
        { w with Platform := env.PlatformFarcaster, Tags := [env.Social] }
       else w) :: done)

/-- The function `getNodeWorkerStatus`. `decoded` is what the fetch, `io.ReadAll`
and `json.Unmarshal` give: an error, or the decoded document. The pointers of
`Federated` are never followed by the enforcer; its nil elements are dropped. -/
def getNodeWorkerStatus (env : Env) (decoded : Except String WorkerResponse) :
    Outcome ComponentInfo :=
  match decoded with
  | Except.error err => Outcome.err err
  | Except.ok response =>
    match response.Data with
    | none => Outcome.fault
    | some data =>
      match normalizeDecentralized env data.Decentralized with
      | none => Outcome.fault
      | some entries =>
        Outcome.ok { Decentralized := entries, RSS := data.RSS,
                     Federated := data.Federated.filterMap (fun f => f) }

/-- The outcome of one poll as `generateMaps` sees it: the report, or `none`
after an error; the outer `none` is a run-time fault. -/
def pollOf (env : Env) (decoded : Except String WorkerResponse) :
    Option (Option ComponentInfo) :=
  match getNodeWorkerStatus env decoded with
  | Outcome.ok data => some (some data)
  | Outcome.err _ => some none
  | Outcome.fault => none

/-- The polls of a list of nodes, `none` as soon as one of them faults. -/
def pollAll (env : Env) :
    List (Stat × Except String WorkerResponse) → Option (List (Stat × Option ComponentInfo))
  | [] => some []
  | (stat, decoded) :: rest =>
    match pollOf env decoded, pollAll env rest with
    | some poll, some polled => some ((stat, poll) :: polled)
    | _, _ => none

/-- The function `generateMaps` with its `getNodeWorkerStatus` calls: `responses`
pairs every `Stat` with what the node answered. A fault in one goroutine ends
the process. -/
def generateMapsOfResponses (env : Env) (responses : List (Stat × Except String WorkerResponse)) :
    Outcome (List (String × ComponentInfo) × TopologyMaps) :=
  match pollAll env responses with
  | none => Outcome.fault
  | some polled => Outcome.ok (generateMaps env polled)

/-! ## FindNodeEvents -/

/-- The columns of `table.NodeEvent` that `FindNodeEvents` reads. -/
structure NodeEvent where
  TransactionHash : String
  TransactionIndex : Nat
  LogIndex : Nat
  BlockNumber : Nat
  AddressFrom : common.Address
deriving DecidableEq, Repr

/-- The fields of a character list between the occurrences of `sep`. -/
def splitChars (sep : Char) : List Char → List (List Char)
  | [] => [[]]
  | c :: cs =>
    if c = sep then [] :: splitChars sep cs
    else
      match splitChars sep cs with
      | field :: fields => (c :: field) :: fields
      | [] => [[c]]

/-- The call `strings.Split(s, sep)` for a separator of one character. -/
def stringsSplit (s : String) (sep : Char) : List String :=
  (splitChars sep s.toList).map String.mk

/-- The digits of an unsigned decimal number, most significant first. -/
def parseDigits : List Char → Nat → Option Nat
  | [], acc => some acc
  | c :: cs, acc =>
    if c.isDigit then parseDigits cs (acc * 10 + (c.toNat - 48)) else none

/-- The value the storage compares an integer column with when the parameter is
the text `s`; `none` when `s` is not an unsigned decimal number. -/
def parseUint (s : String) : Option Nat :=
  if s.toList = [] then none else parseDigits s.toList 0

/-- The storage queries that `FindNodeEvents` issues. -/
inductive StorageQuery where
  | cursorLookup : String → String → String → StorageQuery
  | findEvents : common.Address → StorageQuery
deriving DecidableEq, Repr

/-- The query for the cursor row: `transaction_hash = ?`, `transaction_index = ?`,
`log_index = ?`, then `First`. -/
def findCursorEvent (table : List NodeEvent) (hash transactionIndex logIndex : String) :
    Option NodeEvent :=
  match parseUint transactionIndex, parseUint logIndex with
  | some ti, some li =>
    table.find? (fun row =>
      decide (row.TransactionHash = hash ∧ row.TransactionIndex = ti ∧ row.LogIndex = li))
  | _, _ => none

/-- The `WHERE` clause of the final query of `FindNodeEvents` for a row. Without
a cursor it is `address_from = ?`. With the cursor row `nodeEvent` the chain
`Where(a).Or(b).Or(c).Where("address_from = ?")` is rendered
`a OR (b) OR (c) AND address_from = ?`, in which `AND` binds before `OR`: the
address condition reaches the third condition only. -/
def whereClause (nodeAddress : common.Address) (cursorEvent : Option NodeEvent)
    (row : NodeEvent) : Bool :=
  match cursorEvent with
  | none => decide (row.AddressFrom = nodeAddress)
  | some nodeEvent =>
    decide (row.BlockNumber < nodeEvent.BlockNumber) ||
    decide (row.BlockNumber = nodeEvent.BlockNumber ∧
      row.TransactionIndex < nodeEvent.TransactionIndex) ||
    (decide (row.BlockNumber = nodeEvent.BlockNumber ∧
      row.TransactionIndex < nodeEvent.TransactionIndex ∧ row.LogIndex < nodeEvent.LogIndex) &&
     decide (row.AddressFrom = nodeAddress))

/-- The order `block_number DESC, transaction_index DESC, log_index DESC`: `a`
is listed no later than `b`. -/
def eventOrder (a b : NodeEvent) : Prop :=
  b.BlockNumber < a.BlockNumber ∨
  (a.BlockNumber = b.BlockNumber ∧
    (b.TransactionIndex < a.TransactionIndex ∨
      (a.TransactionIndex = b.TransactionIndex ∧ b.LogIndex ≤ a.LogIndex)))

instance : DecidableRel eventOrder := fun a b => by
  unfold eventOrder; infer_instance

/-- The event `a` comes strictly before `c` in the descending order. -/
def strictlyBefore (c a : NodeEvent) : Prop :=
  a.BlockNumber < c.BlockNumber ∨
  (a.BlockNumber = c.BlockNumber ∧
    (a.TransactionIndex < c.TransactionIndex ∨
      (a.TransactionIndex = c.TransactionIndex ∧ a.LogIndex < c.LogIndex)))

instance (c a : NodeEvent) : Decidable (strictlyBefore c a) := by
  unfold strictlyBefore; infer_instance

/-- The final query of `FindNodeEvents` as a filter on the rows: the `WHERE`
clause, then the order and the limit. -/
def findEvents (table : List NodeEvent) (nodeAddress : common.Address)
    (cursorEvent : Option NodeEvent) (limit : Nat) : List NodeEvent :=
  ((table.filter (whereClause nodeAddress cursorEvent)).insertionSort eventOrder).take limit

/-- What `FindNodeEvents` returns, and the storage queries it has issued. -/
structure FindResult where
  events : Except String (List NodeEvent)
  queries : List StorageQuery
deriving Repr

/-- The function `FindNodeEvents` on the event table, when the storage answers
every query; a nil cursor is `none`. -/
def FindNodeEvents (table : List NodeEvent) (nodeAddress : common.Address)
    (cursor : Option String) (limit : Nat) : FindResult :=
  match cursor with
  | none =>
    { events := Except.ok (findEvents table nodeAddress none limit)
      queries := [StorageQuery.findEvents nodeAddress] }
  | some cursor =>
    let key := stringsSplit cursor ':'
    if key.length ≠ 3 then
      { events := Except.error ("invalid cursor: " ++ cursor), queries := [] }
    else
      match findCursorEvent table (key.getD 0 "") (key.getD 1 "") (key.getD 2 "") with
      | none =>
        { events := Except.error "get node cursor: record not found"
          queries := [StorageQuery.cursorLookup (key.getD 0 "") (key.getD 1 "") (key.getD 2 "")] }
      | some nodeEvent =>
        { events := Except.ok (findEvents table nodeAddress (some nodeEvent) limit)
          queries := [StorageQuery.cursorLookup (key.getD 0 "") (key.getD 1 "") (key.getD 2 ""),
            StorageQuery.findEvents nodeAddress] }

/-- An event row for the examples. -/
def demoEvent (hash : String) (block transactionIndex logIndex : Nat) (address : String) :
    NodeEvent :=
  { TransactionHash := hash, TransactionIndex := transactionIndex, LogIndex := logIndex,
    BlockNumber := block, AddressFrom := address }

/-- An event table for the examples: block 10 holds a transaction with two logs
of node `0xA` and an earlier transaction, block 9 holds events of two nodes. -/
def demoEvents : List NodeEvent :=
  [demoEvent "0xh1" 10 2 5 "0xA", demoEvent "0xh1" 10 2 3 "0xA", demoEvent "0xh0" 10 1 9 "0xA",
   demoEvent "0xg7" 9 4 0 "0xA", demoEvent "0xg8" 9 5 1 "0xB"]

/-- The worker-assignment rows that the specification asks for one `Stat`: none
for a node without a report or classified full, otherwise one active row of the
current epoch per decentralized worker entry. -/
def assignmentRowsOf (env : Env) (topology : List (String × List String))
    (nodeToDataMap : List (String × ComponentInfo)) (epoch : Int) (stat : Stat) :
    List WorkerRow :=
  match mapGet nodeToDataMap stat.Address with
  | none => []
  | some workerInfo =>
    if determineFullNode env topology workerInfo.Decentralized then []
    else workerInfo.Decentralized.map (fun w =>
      { EpochID := epoch, Address := stat.Address, Network := env.networkString w.Network,
        Name := env.workerName w.Worker, IsActive := true })

/-- The number of distinct networks among a list of entries. -/
def distinctNetworks (workers : List DecentralizedWorkerInfo) : Nat :=
  (workers.map (fun w => w.Network)).dedup.length

/-! ## NodeStatus -/

/-- The constant `_NodeStatusName` (and `_NodeStatusLowerName`, which is the same text). -/
def NodeStatusName : String := "registeredonlineofflineexiting"

/-- The variable `_NodeStatusIndex`. -/
def NodeStatusIndex : List Nat := [0, 10, 16, 23, 30]

/-- The slice expression `s[lo:hi]` on a string of one-byte characters. -/
def sliceString (s : String) (lo hi : Nat) : String :=
  String.mk ((s.toList.drop lo).take (hi - lo))

/-- The method `NodeStatus.String`; a `NodeStatus` is a signed integer. -/
def NodeStatus.String (i : Int) : String :=
  if i < 0 ∨ i ≥ ((NodeStatusIndex.length - 1 : Nat) : Int) then
    "NodeStatus(" ++ toString i ++ ")"
  else
    sliceString NodeStatusName (NodeStatusIndex.getD i.toNat 0)
      (NodeStatusIndex.getD (i.toNat + 1) 0)

/-- The constants `NodeStatusRegistered`, `NodeStatusOnline`, `NodeStatusOffline`
and `NodeStatusExited`, as `_NodeStatusValues` lists them. -/
def NodeStatusValues : List Int := [0, 1, 2, 3]

/-- The variable `_NodeStatusNameToValueMap`, entry after entry of its literal. -/
def NodeStatusNameToValueMap : List (String × Int) :=
  [(sliceString NodeStatusName 0 10, (0 : Int)), (sliceString NodeStatusName 0 10, 0),
   (sliceString NodeStatusName 10 16, 1), (sliceString NodeStatusName 10 16, 1),
   (sliceString NodeStatusName 16 23, 2), (sliceString NodeStatusName 16 23, 2),
   (sliceString NodeStatusName 23 30, 3), (sliceString NodeStatusName 23 30, 3)].foldl
    (fun m kv => mapSet m kv.1 kv.2) []

/-- The function `NodeStatusString`; `toLower` is `strings.ToLower`. -/
def NodeStatusString (toLower : String → String) (s : String) : Except String Int :=
  match mapGet NodeStatusNameToValueMap s with
  | some val => Except.ok val
  | none =>
    match mapGet NodeStatusNameToValueMap (toLower s) with
    | some val => Except.ok val
    | none => Except.error (s ++ " does not belong to NodeStatus values")

/-- Lower-casing of the letters `A` to `Z`, for the examples. -/
def asciiLower (s : String) : String :=
  String.mk (s.toList.map Char.toLower)

/-- No slice of the map is empty. -/
def SlicesNonempty (m : List (String × List String)) : Prop :=
  ∀ entry ∈ m, entry.2 ≠ []

/-! ## Examples -/

/-- A name table for the examples. -/
def demoEnv : Env where
  networkString := fun n =>
    if n = 1 then "net1" else if n = 2 then "net2" else if n = 3 then "net3" else "unknown"
  workerString := fun w => if w = 1 then "A" else if w = 2 then "B" else "unknown"
  workerName := fun w => if w = 1 then "Worker A" else if w = 2 then "Worker B" else "Unknown"
  platformString := fun p => if p = 1 then "p1" else if p = 2 then "p2" else "unknown"
  tagString := fun t => if t = 1 then "t1" else if t = 2 then "t2" else "unknown"
  StatusReady := 3
  PlatformUnknown := 0
  RSSHub := 1
  RenameWorkerMap := fun n => if n = 9 then some "renamed" else none
  DemotionCountBeforeSlashing := 4
  WorkerToNetworksMapKey := "worker_to_networks"
  NetworkToWorkersMapKey := "network_to_workers"
  PlatformToWorkersMapKey := "platform_to_workers"
  TagToWorkersMapKey := "tag_to_workers"
  Farcaster := 8
  PlatformFarcaster := 2
  Social := 2

/-- A Ready entry of worker `A` (code 1) on network code `n`. -/
def readyA (n : network.Network) : DecentralizedWorkerInfo :=
  { Network := n, Tags := [1], Status := 3, Worker := 1, Platform := 1 }

/-- The document `{}`: valid JSON without a `data` object. -/
def emptyDocument : Except String WorkerResponse := Except.ok { Data := none }

/-- The document `{"data": {"decentralized": [null]}}`. -/
def nullEntryDocument : Except String WorkerResponse :=
  Except.ok { Data := some { Decentralized := [none], RSS := none, Federated := [] } }

/-- A well-formed document with one Ready entry of worker `A` on `net1`. -/
def healthyDocument : Except String WorkerResponse :=
  Except.ok { Data := some { Decentralized := [some (readyA 1)], RSS := none, Federated := [] } }

/-- Every bucket of the map is duplicate-free. -/
def BucketsNodup (m : List (String × List String)) : Prop :=
  ∀ w s, mapGet m w = some s → s.Nodup

/-! # Theorems -/

/-! ## Lemmas on Go maps -/

theorem mem_setAdd (s : List String) (x y : String) : y ∈ setAdd s x ↔ y = x ∨ y ∈ s := by
  unfold setAdd
  by_cases h : x ∈ s
  · simp only [h, if_true]
    constructor
    · intro hy; exact Or.inr hy
    · rintro (rfl | hy)
      · exact h
      · exact hy
  · simp only [h, if_false, List.mem_append, List.mem_singleton]
    tauto

theorem nodup_setAdd (s : List String) (x : String) (hs : s.Nodup) : (setAdd s x).Nodup := by
  unfold setAdd
  by_cases h : x ∈ s
  · simpa [h] using hs
  · simp only [h, if_false]
    rw [List.nodup_append]
    refine ⟨hs, List.nodup_singleton x, ?_⟩
    intro a ha hb
    rw [List.mem_singleton] at hb
    exact h (hb ▸ ha)

theorem setAdd_of_mem (s : List String) (x : String) (h : x ∈ s) : setAdd s x = s := by
  unfold setAdd; simp [h]

theorem mapGet_bucketAdd (m : List (String × List String)) (k x w : String) :
    mapGet (bucketAdd m k x) w = if w = k then some (setAdd (bucket m k) x) else mapGet m w := by
  induction m with
  | nil =>
    by_cases h : w = k
    · subst h; simp [bucketAdd, mapGet, bucket]
    · have h' : ¬ k = w := fun e => h e.symm
      simp [bucketAdd, mapGet, h, h']
  | cons p t ih =>
    obtain ⟨k', s⟩ := p
    by_cases hk : k' = k
    · subst hk
      by_cases h : w = k'
      · subst h; simp [bucketAdd, mapGet, bucket]
      · have h' : ¬ k' = w := fun e => h e.symm
        simp [bucketAdd, mapGet, h, h']
    · by_cases h : w = k
      · subst h
        simp only [bucketAdd, hk, if_false, mapGet, ih, if_true, bucket]
      · simp only [bucketAdd, hk, if_false, mapGet, ih, h]

theorem mem_bucket_bucketAdd (m : List (String × List String)) (k x w y : String) :
    y ∈ bucket (bucketAdd m k x) w ↔ (w = k ∧ y = x) ∨ y ∈ bucket m w := by
  unfold bucket
  rw [mapGet_bucketAdd]
  by_cases h : w = k
  · subst h
    simp only [if_true, Option.getD_some, mem_setAdd, bucket, true_and]
  · simp [h]

theorem length_bucketAdd_le (m : List (String × List String)) (k x : String) :
    (bucketAdd m k x).length ≤ m.length + 1 := by
  induction m with
  | nil => simp [bucketAdd]
  | cons p t ih =>
    obtain ⟨k', s⟩ := p
    by_cases hk : k' = k
    · simp [bucketAdd, hk]
    · simp only [bucketAdd, hk, if_false, List.length_cons]; omega

theorem keys_bucketAdd (m : List (String × List String)) (k x w : String) :
    w ∈ (bucketAdd m k x).map Prod.fst ↔ w = k ∨ w ∈ m.map Prod.fst := by
  induction m with
  | nil => simp [bucketAdd]
  | cons p t ih =>
    obtain ⟨k', s⟩ := p
    by_cases hk : k' = k
    · subst hk; simp [bucketAdd]
    · simp only [bucketAdd, hk, if_false, List.map_cons, List.mem_cons, ih]
      tauto

theorem nodup_keys_bucketAdd (m : List (String × List String)) (k x : String)
    (h : (m.map Prod.fst).Nodup) : ((bucketAdd m k x).map Prod.fst).Nodup := by
  induction m with
  | nil => simp [bucketAdd]
  | cons p t ih =>
    obtain ⟨k', s⟩ := p
    by_cases hk : k' = k
    · subst hk; simpa [bucketAdd] using h
    · simp only [List.map_cons, List.nodup_cons] at h
      simp only [bucketAdd, hk, if_false, List.map_cons, List.nodup_cons]
      refine ⟨?_, ih h.2⟩
      rw [keys_bucketAdd]
      rintro (e | hmem)
      · exact hk e
      · exact h.1 hmem

theorem mapGet_isSome_iff {α : Type} (m : List (String × α)) (k : String) :
    (∃ v, mapGet m k = some v) ↔ k ∈ m.map Prod.fst := by
  induction m with
  | nil => simp [mapGet]
  | cons p t ih =>
    obtain ⟨k', s⟩ := p
    by_cases hk : k' = k
    · subst hk; simp [mapGet]
    · have hk' : ¬ k = k' := fun e => hk e.symm
      simp only [mapGet, hk, if_false, ih, List.map_cons, List.mem_cons, hk', false_or]

theorem bucketsNodup_nil : BucketsNodup [] := by
  intro w s h; simp [mapGet] at h

theorem bucketsNodup_bucketAdd (m : List (String × List String)) (k x : String)
    (h : BucketsNodup m) : BucketsNodup (bucketAdd m k x) := by
  intro w s hs
  rw [mapGet_bucketAdd] at hs
  by_cases hw : w = k
  · subst hw
    simp only [if_true, Option.some.injEq] at hs
    subst hs
    apply nodup_setAdd
    unfold bucket
    cases hg : mapGet m w with
    | none => simp
    | some s0 => simpa using h w s0 hg
  · simp only [hw, if_false] at hs
    exact h w s hs

/-! ## determineFullNode -/

theorem bucket_nil (w : String) : bucket [] w = [] := rfl

theorem length_foldl_bucketAdd_le {β : Type} (f g : β → String) (ws : List β)
    (m : List (String × List String)) :
    (ws.foldl (fun m w => bucketAdd m (f w) (g w)) m).length ≤ m.length + ws.length := by
  induction ws generalizing m with
  | nil => simp
  | cons a t ih =>
    simp only [List.foldl_cons, List.length_cons]
    have h1 := ih (bucketAdd m (f a) (g a))
    have h2 := length_bucketAdd_le m (f a) (g a)
    omega

theorem bucketsNodup_foldl_bucketAdd {β : Type} (f g : β → String) (ws : List β)
    (m : List (String × List String)) (h : BucketsNodup m) :
    BucketsNodup (ws.foldl (fun m w => bucketAdd m (f w) (g w)) m) := by
  induction ws generalizing m with
  | nil => simpa using h
  | cons a t ih =>
    simp only [List.foldl_cons]
    exact ih _ (bucketsNodup_bucketAdd m (f a) (g a) h)

theorem nodup_keys_foldl_bucketAdd {β : Type} (f g : β → String) (ws : List β)
    (m : List (String × List String)) (h : (m.map Prod.fst).Nodup) :
    ((ws.foldl (fun m w => bucketAdd m (f w) (g w)) m).map Prod.fst).Nodup := by
  induction ws generalizing m with
  | nil => simpa using h
  | cons a t ih =>
    simp only [List.foldl_cons]
    exact ih _ (nodup_keys_bucketAdd m (f a) (g a) h)

theorem mem_bucket_foldl_bucketAdd {β : Type} (f g : β → String) (ws : List β)
    (m : List (String × List String)) (w y : String) :
    y ∈ bucket (ws.foldl (fun m w => bucketAdd m (f w) (g w)) m) w ↔
      y ∈ bucket m w ∨ ∃ e ∈ ws, f e = w ∧ g e = y := by
  induction ws generalizing m with
  | nil => simp
  | cons a t ih =>
    simp only [List.foldl_cons, ih, mem_bucket_bucketAdd, List.mem_cons, exists_eq_or_imp]
    constructor
    · rintro ((⟨h1, h2⟩ | h) | h)
      · exact Or.inr (Or.inl ⟨h1.symm, h2.symm⟩)
      · exact Or.inl h
      · exact Or.inr (Or.inr h)
    · rintro (h | ⟨h1, h2⟩ | h)
      · exact Or.inl (Or.inr h)
      · exact Or.inl (Or.inl ⟨h1.symm, h2.symm⟩)
      · exact Or.inr h

theorem bucketsNodup_workerToNetworksOf (env : Env) (ws : List DecentralizedWorkerInfo) :
    BucketsNodup (workerToNetworksOf env ws) :=
  bucketsNodup_foldl_bucketAdd _ _ ws [] bucketsNodup_nil

theorem length_workerToNetworksOf_le (env : Env) (ws : List DecentralizedWorkerInfo) :
    (workerToNetworksOf env ws).length ≤ ws.length := by
  have h := length_foldl_bucketAdd_le (renamedWorker env) (fun w => env.networkString w.Network)
    ws []
  simpa [workerToNetworksOf] using h

theorem mem_iff_of_nodup_of_length_of_subset {l₁ l₂ : List String} (h₁ : l₁.Nodup)
    (hlen : l₂.length = l₁.length) (hsub : ∀ n ∈ l₁, n ∈ l₂) (n : String) :
    n ∈ l₂ ↔ n ∈ l₁ := by
  have hsp : List.Subperm l₁ l₂ := List.subperm_of_subset h₁ hsub
  have hp : List.Perm l₁ l₂ := hsp.perm_of_length_le (le_of_eq hlen)
  exact hp.mem_iff.symm

theorem determineFullNode_eq_true_iff (env : Env) (topology : List (String × List String))
    (workers : List DecentralizedWorkerInfo) (hT : Published topology) :
    determineFullNode env topology workers = true ↔ ExactMatch env topology workers := by
  unfold determineFullNode ExactMatch
  simp only []
  constructor
  · intro h
    by_cases hlen : (readyWorkers env workers).length < topology.length
    · simp [hlen] at h
    · simp only [hlen, if_false, List.all_eq_true] at h
      intro entry hentry
      have he := h entry hentry
      cases hg : mapGet (workerToNetworksOf env (readyWorkers env workers)) entry.1 with
      | none => simp [hg] at he
      | some networks =>
        simp only [hg] at he
        by_cases hl : networks.length = entry.2.length
        · simp only [hl, ne_eq, not_true_eq_false, if_false, List.all_eq_true,
            decide_eq_true_eq] at he
          exact ⟨networks, rfl, hl,
            mem_iff_of_nodup_of_length_of_subset (hT.2 entry hentry) hl he⟩
        · simp [hl] at he
  · intro h
    have hkeys : ∀ k ∈ topology.map Prod.fst,
        k ∈ (workerToNetworksOf env (readyWorkers env workers)).map Prod.fst := by
      intro k hk
      obtain ⟨entry, hentry, rfl⟩ := List.mem_map.1 hk
      obtain ⟨networks, hg, _, _⟩ := h entry hentry
      exact (mapGet_isSome_iff _ _).1 ⟨networks, hg⟩
    have hsp := (List.subperm_of_subset hT.1 hkeys).length_le
    have hle := length_workerToNetworksOf_le env (readyWorkers env workers)
    simp only [List.length_map] at hsp
    have hlen : ¬ (readyWorkers env workers).length < topology.length := by omega
    simp only [hlen, if_false, List.all_eq_true]
    intro entry hentry
    obtain ⟨networks, hg, hl, hmem⟩ := h entry hentry
    simp only [hg, hl, ne_eq, not_true_eq_false, if_false, List.all_eq_true, decide_eq_true_eq]
    intro n hn
    exact (hmem n).2 hn

/-- C1. Exact-match rule of `determineFullNode`: for a published topology and
any list of a node's decentralized worker entries, the function returns true
exactly when every worker the topology requires has, in the map built from the
Ready entries (worker rename applied), a network set of the same cardinality
and the same members as the topology's. The sets of that map are duplicate-free,
and a network is in the set of a worker name exactly when a Ready entry carries
that network under that (renamed) worker name. -/
theorem determineFullNode_iff_exactMatch (env : Env) (topology : List (String × List String))
    (workers : List DecentralizedWorkerInfo) (hT : Published topology) :
    (determineFullNode env topology workers = true ↔ ExactMatch env topology workers) ∧
    BucketsNodup (workerToNetworksOf env (readyWorkers env workers)) ∧
    ∀ w n, n ∈ bucket (workerToNetworksOf env (readyWorkers env workers)) w ↔
      ∃ e ∈ workers, e.Status = env.StatusReady ∧ renamedWorker env e = w ∧
        env.networkString e.Network = n := by
  refine ⟨determineFullNode_eq_true_iff env topology workers hT,
    bucketsNodup_workerToNetworksOf env _, ?_⟩
  · intro w n
    unfold workerToNetworksOf
    rw [mem_bucket_foldl_bucketAdd]
    simp only [bucket_nil, List.not_mem_nil, false_or, readyWorkers, List.mem_filter,
      decide_eq_true_eq]
    constructor
    · rintro ⟨e, ⟨he, hs⟩, hw, hn⟩
      exact ⟨e, he, hs, hw, hn⟩
    · rintro ⟨e, he, hs, hw, hn⟩
      exact ⟨e, ⟨he, hs⟩, hw, hn⟩

/-- C1, at the topology `A ↦ {net1, net2}`: the theorem applies, and reports
giving worker `A` the networks `{net1}`, `{net1, net2, net3}` and `{net1, net2}`
are classified false, false and true. -/
theorem determineFullNode_iff_exactMatch_witness :
    Published [("A", ["net1", "net2"])] ∧
    (determineFullNode demoEnv [("A", ["net1", "net2"])] [readyA 1, readyA 2] = true ↔
      ExactMatch demoEnv [("A", ["net1", "net2"])] [readyA 1, readyA 2]) ∧
    determineFullNode demoEnv [("A", ["net1", "net2"])] [readyA 1] = false ∧
    determineFullNode demoEnv [("A", ["net1", "net2"])] [readyA 1, readyA 2, readyA 3] = false ∧
    determineFullNode demoEnv [("A", ["net1", "net2"])] [readyA 1, readyA 2] = true :=
  ⟨by decide,
   (determineFullNode_iff_exactMatch demoEnv [("A", ["net1", "net2"])] [readyA 1, readyA 2]
     (by decide)).1,
   by decide, by decide, by decide⟩

/-! ## updateNodeWorkers: the per-node evaluation -/

/-- C2. Unreachable-node disqualification: a `Stat` whose address is absent from
the report map leaves `updateNodeWorkers` with `EpochInvalidRequest` equal to
`model.DemotionCountBeforeSlashing`, whatever its counter and epoch were; no
other field is touched. -/
theorem updateNodeWorkers_absent_sets_demotion (env : Env) (db : Database)
    (topology : List (String × List String)) (stats : List Stat)
    (nodeToDataMap : List (String × ComponentInfo)) (epoch : Int) (table : List WorkerRow)
    (i : Nat) (stat : Stat) (hi : stats[i]? = some stat)
    (habsent : mapGet nodeToDataMap stat.Address = none) :
    ∃ stat', (updateNodeWorkers env db topology stats nodeToDataMap epoch table).stats[i]?
        = some stat' ∧
      stat'.EpochInvalidRequest = env.DemotionCountBeforeSlashing ∧
      stat' = { stat with EpochInvalidRequest := env.DemotionCountBeforeSlashing } := by
  refine ⟨{ stat with EpochInvalidRequest := env.DemotionCountBeforeSlashing }, ?_, rfl, rfl⟩
  simp only [updateNodeWorkers, List.map_map, List.getElem?_map, hi, Option.map_some',
    Function.comp_apply, evaluateStat, habsent]

/-- C2, at a `Stat` with counter 9 recorded at epoch 6, evaluated at epoch 7 with
an empty report map and a threshold of 4. -/
theorem updateNodeWorkers_absent_sets_demotion_witness :
    [demoStat "0xA" 10 6 9][0]? = some (demoStat "0xA" 10 6 9) ∧
    mapGet ([] : List (String × ComponentInfo)) (demoStat "0xA" 10 6 9).Address = none ∧
    ∃ stat', (updateNodeWorkers demoEnv workingDb [] [demoStat "0xA" 10 6 9] [] 7 []).stats[0]?
        = some stat' ∧
      stat'.EpochInvalidRequest = demoEnv.DemotionCountBeforeSlashing ∧
      stat' = { demoStat "0xA" 10 6 9 with
        EpochInvalidRequest := demoEnv.DemotionCountBeforeSlashing } :=
  ⟨rfl, rfl,
   updateNodeWorkers_absent_sets_demotion demoEnv workingDb [] [demoStat "0xA" 10 6 9] [] 7 []
     0 (demoStat "0xA" 10 6 9) rfl rfl⟩

/-- C3. Epoch rollover: for a `Stat` of a node that has a report, a recorded
epoch different from the current one leaves `updateNodeWorkers` with `Epoch`
equal to the current epoch and `EpochInvalidRequest` equal to 0; a recorded
epoch equal to the current one leaves `EpochInvalidRequest` unchanged. -/
theorem updateNodeWorkers_epoch_rollover (env : Env) (db : Database)
    (topology : List (String × List String)) (stats : List Stat)
    (nodeToDataMap : List (String × ComponentInfo)) (epoch : Int) (table : List WorkerRow)
    (i : Nat) (stat : Stat) (workerInfo : ComponentInfo) (hi : stats[i]? = some stat)
    (hreport : mapGet nodeToDataMap stat.Address = some workerInfo) :
    ∃ stat', (updateNodeWorkers env db topology stats nodeToDataMap epoch table).stats[i]?
        = some stat' ∧
      (stat.Epoch ≠ epoch → stat'.Epoch = epoch ∧ stat'.EpochInvalidRequest = 0) ∧
      (stat.Epoch = epoch → stat'.Epoch = epoch ∧
        stat'.EpochInvalidRequest = stat.EpochInvalidRequest) := by
  refine ⟨(evaluateStat env topology nodeToDataMap epoch stat).1, ?_, ?_, ?_⟩
  · simp only [updateNodeWorkers, List.map_map, List.getElem?_map, hi, Option.map_some',
      Function.comp_apply]
  · intro hne
    have hne' : epoch ≠ stat.Epoch := fun e => hne e.symm
    simp [evaluateStat, hreport, hne']
  · intro heq
    simp [evaluateStat, hreport, heq]

/-- C3, at a `Stat` with counter 5 recorded at epoch 6, evaluated at epoch 7 with
a report. -/
theorem updateNodeWorkers_epoch_rollover_witness :
    [demoStat "0xA" 10 6 5][0]? = some (demoStat "0xA" 10 6 5) ∧
    mapGet [("0xA", ({ Decentralized := [readyA 1], RSS := none, Federated := [] } :
      ComponentInfo))] (demoStat "0xA" 10 6 5).Address
      = some { Decentralized := [readyA 1], RSS := none, Federated := [] } ∧
    ∃ stat', (updateNodeWorkers demoEnv workingDb [] [demoStat "0xA" 10 6 5]
        [("0xA", { Decentralized := [readyA 1], RSS := none, Federated := [] })] 7 []).stats[0]?
        = some stat' ∧
      ((demoStat "0xA" 10 6 5).Epoch ≠ 7 → stat'.Epoch = 7 ∧ stat'.EpochInvalidRequest = 0) ∧
      ((demoStat "0xA" 10 6 5).Epoch = 7 → stat'.Epoch = 7 ∧
        stat'.EpochInvalidRequest = (demoStat "0xA" 10 6 5).EpochInvalidRequest) :=
  ⟨rfl, by decide,
   updateNodeWorkers_epoch_rollover demoEnv workingDb [] [demoStat "0xA" 10 6 5]
     [("0xA", { Decentralized := [readyA 1], RSS := none, Federated := [] })] 7 []
     0 (demoStat "0xA" 10 6 5) { Decentralized := [readyA 1], RSS := none, Federated := [] }
     rfl (by decide)⟩

/-! ## filterDuplicateWorkers -/

theorem keys_mapSet {α : Type} (m : List (String × α)) (k : String) (v : α) (w : String) :
    w ∈ (mapSet m k v).map Prod.fst ↔ w = k ∨ w ∈ m.map Prod.fst := by
  induction m with
  | nil => simp [mapSet]
  | cons p t ih =>
    obtain ⟨k', s⟩ := p
    by_cases hk : k' = k
    · subst hk; simp [mapSet]
    · simp only [mapSet, hk, if_false, List.map_cons, List.mem_cons, ih]
      tauto

theorem nodup_keys_mapSet {α : Type} (m : List (String × α)) (k : String) (v : α)
    (h : (m.map Prod.fst).Nodup) : ((mapSet m k v).map Prod.fst).Nodup := by
  induction m with
  | nil => simp [mapSet]
  | cons p t ih =>
    obtain ⟨k', s⟩ := p
    by_cases hk : k' = k
    · subst hk; simpa [mapSet] using h
    · simp only [List.map_cons, List.nodup_cons] at h
      simp only [mapSet, hk, if_false, List.map_cons, List.nodup_cons]
      refine ⟨?_, ih h.2⟩
      rw [keys_mapSet]
      rintro (e | hmem)
      · exact hk e
      · exact h.1 hmem

theorem mem_mapSet_iff {α : Type} (m : List (String × α)) (k : String) (v : α)
    (h : (m.map Prod.fst).Nodup) (p : String × α) :
    p ∈ mapSet m k v ↔ p = (k, v) ∨ (p ∈ m ∧ p.1 ≠ k) := by
  induction m with
  | nil => simp [mapSet]
  | cons q t ih =>
    obtain ⟨k', s⟩ := q
    simp only [List.map_cons, List.nodup_cons] at h
    by_cases hk : k' = k
    · subst hk
      simp only [mapSet, if_true, List.mem_cons]
      constructor
      · rintro (hp | hp)
        · exact Or.inl hp
        · refine Or.inr ⟨Or.inr hp, ?_⟩
          intro e
          apply h.1
          rw [← e]
          exact List.mem_map_of_mem Prod.fst hp
      · rintro (hp | ⟨hp | hp, hne⟩)
        · exact Or.inl hp
        · exact absurd (by rw [hp]) hne
        · exact Or.inr hp
    · simp only [mapSet, hk, if_false, List.mem_cons, ih h.2]
      constructor
      · rintro (hp | hp | ⟨hp, hne⟩)
        · refine Or.inr ⟨Or.inl hp, ?_⟩
          rw [hp]; exact hk
        · exact Or.inl hp
        · exact Or.inr ⟨Or.inr hp, hne⟩
      · rintro (hp | ⟨hp | hp, hne⟩)
        · exact Or.inr (Or.inl hp)
        · exact Or.inl hp
        · exact Or.inr (Or.inr ⟨hp, hne⟩)

theorem mem_of_mapGet {α : Type} (m : List (String × α)) (k : String) (v : α)
    (h : mapGet m k = some v) : (k, v) ∈ m := by
  induction m with
  | nil => simp [mapGet] at h
  | cons q t ih =>
    obtain ⟨k', s⟩ := q
    by_cases hk : k' = k
    · subst hk
      simp only [mapGet, if_true, Option.some.injEq] at h
      subst h
      exact List.mem_cons_self _ _
    · simp only [mapGet, hk, if_false] at h
      exact List.mem_cons_of_mem _ (ih h)

theorem not_mem_keys_of_mapGet_none {α : Type} (m : List (String × α)) (k : String)
    (h : mapGet m k = none) : k ∉ m.map Prod.fst := by
  intro hk
  obtain ⟨v, hv⟩ := (mapGet_isSome_iff m k).2 hk
  rw [h] at hv
  exact Option.noConfusion hv

theorem seenInv_nil (env : Env) : SeenInv env [] [] where
  nodup := by simp
  key_eq := by simp
  mem := by simp
  covered := by simp
  status := by simp

theorem seenInv_keep (env : Env) (seen : List (String × DecentralizedWorkerInfo))
    (pre : List DecentralizedWorkerInfo) (e : DecentralizedWorkerInfo)
    (h : SeenInv env seen pre) (hk : workerKey env e ∈ seen.map Prod.fst)
    (hready : e.Status = env.StatusReady) :
    SeenInv env seen (pre ++ [e]) where
  nodup := h.nodup
  key_eq := h.key_eq
  mem := fun p hp => List.mem_append_left _ (h.mem p hp)
  covered := by
    intro x hx
    rcases List.mem_append.1 hx with hx | hx
    · exact h.covered x hx
    · rw [List.mem_singleton] at hx; subst hx; exact hk
  status := by
    intro p hp
    rw [h.status p hp]
    constructor
    · rintro ⟨x, hx, hkx, hs⟩
      exact ⟨x, List.mem_append_left _ hx, hkx, hs⟩
    · rintro ⟨x, hx, hkx, hs⟩
      rcases List.mem_append.1 hx with hx | hx
      · exact ⟨x, hx, hkx, hs⟩
      · rw [List.mem_singleton] at hx; subst hx
        exact absurd hready hs

theorem seenInv_set (env : Env) (seen : List (String × DecentralizedWorkerInfo))
    (pre : List DecentralizedWorkerInfo) (e : DecentralizedWorkerInfo)
    (h : SeenInv env seen pre)
    (hnew : e.Status ≠ env.StatusReady ∨ workerKey env e ∉ seen.map Prod.fst) :
    SeenInv env (mapSet seen (workerKey env e) e) (pre ++ [e]) where
  nodup := nodup_keys_mapSet _ _ _ h.nodup
  key_eq := by
    intro p hp
    rcases (mem_mapSet_iff _ _ _ h.nodup p).1 hp with hp | ⟨hp, _⟩
    · rw [hp]
    · exact h.key_eq p hp
  mem := by
    intro p hp
    rcases (mem_mapSet_iff _ _ _ h.nodup p).1 hp with hp | ⟨hp, _⟩
    · rw [hp]; exact List.mem_append_right _ (List.mem_singleton_self e)
    · exact List.mem_append_left _ (h.mem p hp)
  covered := by
    intro x hx
    rw [keys_mapSet]
    rcases List.mem_append.1 hx with hx | hx
    · exact Or.inr (h.covered x hx)
    · rw [List.mem_singleton] at hx; subst hx; exact Or.inl rfl
  status := by
    intro p hp
    rcases (mem_mapSet_iff _ _ _ h.nodup p).1 hp with hp | ⟨hp, hne⟩
    · subst hp
      constructor
      · intro hs
        exact ⟨e, List.mem_append_right _ (List.mem_singleton_self e), rfl, hs⟩
      · rintro ⟨x, hx, hkx, hs⟩
        rcases List.mem_append.1 hx with hx | hx
        · rcases hnew with hn | hn
          · exact hn
          · have hc := h.covered x hx
            rw [hkx] at hc
            exact absurd hc hn
        · rw [List.mem_singleton] at hx; subst hx; exact hs
    · rw [h.status p hp]
      constructor
      · rintro ⟨x, hx, hkx, hs⟩
        exact ⟨x, List.mem_append_left _ hx, hkx, hs⟩
      · rintro ⟨x, hx, hkx, hs⟩
        rcases List.mem_append.1 hx with hx | hx
        · exact ⟨x, hx, hkx, hs⟩
        · rw [List.mem_singleton] at hx; subst hx
          exact absurd hkx.symm hne

theorem seenInv_step (env : Env) (seen : List (String × DecentralizedWorkerInfo))
    (pre : List DecentralizedWorkerInfo) (e : DecentralizedWorkerInfo)
    (h : SeenInv env seen pre) : SeenInv env (seenStep env seen e) (pre ++ [e]) := by
  unfold seenStep
  cases hg : mapGet seen (workerKey env e) with
  | none =>
    exact seenInv_set env seen pre e h (Or.inr (not_mem_keys_of_mapGet_none _ _ hg))
  | some existing =>
    have hkey : workerKey env e ∈ seen.map Prod.fst :=
      List.mem_map_of_mem Prod.fst (mem_of_mapGet _ _ _ hg)
    show SeenInv env
      (if existing.Status = env.StatusReady ∧ e.Status = env.StatusReady then seen
        else if e.Status ≠ env.StatusReady then mapSet seen (workerKey env e) e else seen)
      (pre ++ [e])
    by_cases hboth : existing.Status = env.StatusReady ∧ e.Status = env.StatusReady
    · rw [if_pos hboth]
      exact seenInv_keep env seen pre e h hkey hboth.2
    · by_cases hs : e.Status = env.StatusReady
      · rw [if_neg hboth, if_neg (not_not.2 hs)]
        exact seenInv_keep env seen pre e h hkey hs
      · rw [if_neg hboth, if_pos hs]
        exact seenInv_set env seen pre e h (Or.inl hs)

theorem seenInv_foldl (env : Env) (rest : List DecentralizedWorkerInfo)
    (seen : List (String × DecentralizedWorkerInfo)) (pre : List DecentralizedWorkerInfo)
    (h : SeenInv env seen pre) : SeenInv env (rest.foldl (seenStep env) seen) (pre ++ rest) := by
  induction rest generalizing seen pre with
  | nil => simpa using h
  | cons e t ih =>
    have := ih (seenStep env seen e) (pre ++ [e]) (seenInv_step env seen pre e h)
    simpa using this

theorem seenInv_seenOf (env : Env) (workers : List DecentralizedWorkerInfo) :
    SeenInv env (seenOf env workers) workers := by
  have := seenInv_foldl env workers [] [] (seenInv_nil env)
  simpa [seenOf] using this

theorem length_le_one_of_nodup_of_const {l : List String} {c : String} (h : l.Nodup)
    (hc : ∀ x ∈ l, x = c) : l.length ≤ 1 := by
  match l, h, hc with
  | [], _, _ => simp
  | [_], _, _ => simp
  | a :: b :: t, h, hc =>
    exfalso
    have ha := hc a (List.mem_cons_self _ _)
    have hb := hc b (List.mem_cons_of_mem _ (List.mem_cons_self _ _))
    rw [List.nodup_cons] at h
    apply h.1
    rw [ha, ← hb]
    exact List.mem_cons_self _ _

theorem workerKey_eq_of_pair (env : Env) (x y : DecentralizedWorkerInfo)
    (hn : x.Network = y.Network) (hw : x.Worker = y.Worker) :
    workerKey env x = workerKey env y := by
  unfold workerKey; rw [hn, hw]

theorem keys_filterDuplicateWorkers (env : Env) (workers : List DecentralizedWorkerInfo) :
    (filterDuplicateWorkers env workers).map (workerKey env) =
      (seenOf env workers).map Prod.fst := by
  unfold filterDuplicateWorkers
  rw [List.map_map]
  apply List.map_congr_left
  intro p hp
  exact ((seenInv_seenOf env workers).key_eq p hp).symm

/-- C4. De-duplication: under name tables that tell the (network, worker) pairs
of the input apart, every enumeration `out` of the result of
`filterDuplicateWorkers` holds exactly one entry for each pair that occurs in
the input and none for any other pair; each kept entry is an input entry, and
it is non-Ready exactly when the input has a non-Ready entry for its pair (so
it is Ready only when all input entries of the pair are Ready). -/
theorem filterDuplicateWorkers_one_per_pair (env : Env)
    (workers out : List DecentralizedWorkerInfo) (hsep : KeysSeparate env workers)
    (hperm : List.Perm out (filterDuplicateWorkers env workers)) :
    (∀ n w, (entriesOf n w out).length = if entriesOf n w workers = [] then 0 else 1) ∧
    (∀ e ∈ out, e ∈ workers) ∧
    (∀ e ∈ out, (e.Status ≠ env.StatusReady ↔
      ∃ x ∈ workers, x.Network = e.Network ∧ x.Worker = e.Worker ∧
        x.Status ≠ env.StatusReady)) := by
  have inv := seenInv_seenOf env workers
  have hsub : ∀ e ∈ out, ∃ p ∈ seenOf env workers, p.2 = e := by
    intro e he
    have he' := hperm.mem_iff.1 he
    unfold filterDuplicateWorkers at he'
    obtain ⟨p, hp, hpe⟩ := List.mem_map.1 he'
    exact ⟨p, hp, hpe⟩
  have hmem : ∀ e ∈ out, e ∈ workers := by
    intro e he
    obtain ⟨p, hp, hpe⟩ := hsub e he
    exact hpe ▸ inv.mem p hp
  refine ⟨?_, hmem, ?_⟩
  · intro n w
    have hlen : (entriesOf n w out).length =
        (entriesOf n w (filterDuplicateWorkers env workers)).length :=
      (hperm.filter _).length_eq
    rw [hlen]
    by_cases hnil : entriesOf n w workers = []
    · rw [if_pos hnil]
      rw [List.length_eq_zero]
      unfold entriesOf
      rw [List.filter_eq_nil_iff]
      intro e he
      have hew : e ∈ workers := hmem e (hperm.mem_iff.2 he)
      unfold entriesOf at hnil
      rw [List.filter_eq_nil_iff] at hnil
      exact hnil e hew
    · rw [if_neg hnil]
      obtain ⟨x, hx⟩ := List.exists_mem_of_ne_nil _ hnil
      unfold entriesOf at hx
      rw [List.mem_filter, decide_eq_true_eq] at hx
      obtain ⟨hxw, hxn, hxk⟩ := hx
      apply le_antisymm
      · have hnd : ((entriesOf n w (filterDuplicateWorkers env workers)).map
            (workerKey env)).Nodup := by
          have hsl : List.Sublist
              ((entriesOf n w (filterDuplicateWorkers env workers)).map (workerKey env))
              ((filterDuplicateWorkers env workers).map (workerKey env)) :=
            (List.filter_sublist _).map _
          apply hsl.nodup
          rw [keys_filterDuplicateWorkers]
          exact inv.nodup
        have hconst : ∀ k ∈ (entriesOf n w (filterDuplicateWorkers env workers)).map
            (workerKey env), k = workerKey env x := by
          intro k hk
          obtain ⟨y, hy, rfl⟩ := List.mem_map.1 hk
          unfold entriesOf at hy
          rw [List.mem_filter, decide_eq_true_eq] at hy
          exact workerKey_eq_of_pair env y x (hy.2.1.trans hxn.symm) (hy.2.2.trans hxk.symm)
        have := length_le_one_of_nodup_of_const hnd hconst
        simpa using this
      · obtain ⟨p, hp, hpk⟩ := List.mem_map.1 (inv.covered x hxw)
        have hpw : p.2 ∈ workers := inv.mem p hp
        have hkey : workerKey env p.2 = workerKey env x := by
          rw [← inv.key_eq p hp]; exact hpk
        have hpair := hsep p.2 hpw x hxw hkey
        have hin : p.2 ∈ entriesOf n w (filterDuplicateWorkers env workers) := by
          unfold entriesOf
          rw [List.mem_filter, decide_eq_true_eq]
          refine ⟨?_, hpair.1.trans hxn, hpair.2.trans hxk⟩
          unfold filterDuplicateWorkers
          exact List.mem_map_of_mem Prod.snd hp
        exact List.length_pos_of_mem hin
  · intro e he
    obtain ⟨p, hp, hpe⟩ := hsub e he
    have hew : e ∈ workers := hmem e he
    have hst := inv.status p hp
    rw [hpe] at hst
    rw [hst]
    have hk : p.1 = workerKey env e := by rw [inv.key_eq p hp, hpe]
    constructor
    · rintro ⟨x, hx, hkx, hs⟩
      have hpair := hsep x hx e hew (hkx.trans hk)
      exact ⟨x, hx, hpair.1, hpair.2, hs⟩
    · rintro ⟨x, hx, hn, hw, hs⟩
      exact ⟨x, hx, (workerKey_eq_of_pair env x e hn hw).trans hk.symm, hs⟩

/-- C4, at a report that lists (net1, A) as Ready, not Ready and Ready again, and
(net2, A) as Ready twice: one entry per pair is kept, the one of (net1, A) is
the entry that is not Ready. -/
theorem filterDuplicateWorkers_one_per_pair_witness :
    KeysSeparate demoEnv [readyA 1, notReadyA 1, readyA 2, readyA 1, readyA 2] ∧
    List.Perm [readyA 2, notReadyA 1]
      (filterDuplicateWorkers demoEnv [readyA 1, notReadyA 1, readyA 2, readyA 1, readyA 2]) ∧
    ((∀ n w, (entriesOf n w [readyA 2, notReadyA 1]).length =
        if entriesOf n w [readyA 1, notReadyA 1, readyA 2, readyA 1, readyA 2] = [] then 0
        else 1) ∧
      (∀ e ∈ [readyA 2, notReadyA 1],
        e ∈ [readyA 1, notReadyA 1, readyA 2, readyA 1, readyA 2]) ∧
      (∀ e ∈ [readyA 2, notReadyA 1], (e.Status ≠ demoEnv.StatusReady ↔
        ∃ x ∈ [readyA 1, notReadyA 1, readyA 2, readyA 1, readyA 2],
          x.Network = e.Network ∧ x.Worker = e.Worker ∧ x.Status ≠ demoEnv.StatusReady))) ∧
    filterDuplicateWorkers demoEnv [readyA 1, notReadyA 1, readyA 2, readyA 1, readyA 2]
      = [notReadyA 1, readyA 2] :=
  ⟨by decide, by decide,
   filterDuplicateWorkers_one_per_pair demoEnv
     [readyA 1, notReadyA 1, readyA 2, readyA 1, readyA 2] [readyA 2, notReadyA 1]
     (by decide) (by decide),
   by decide⟩

/-! ## generateMaps -/

theorem mergeWorker_eq (env : Env) (maps : TopologyMaps) (e : DecentralizedWorkerInfo) :
    mergeWorker env maps e =
      { fullNodeWorkerToNetworksMap := addPairs maps.fullNodeWorkerToNetworksMap (fullPairs env e)
        networkToWorkersMap := addPairs maps.networkToWorkersMap (netPairs env e)
        platformToWorkersMap := addPairs maps.platformToWorkersMap (platformPairs env e)
        tagToWorkersMap := addPairs maps.tagToWorkersMap (tagPairs env e) } := by
  unfold mergeWorker fullPairs netPairs platformPairs tagPairs addPairs
  by_cases hs : e.Status = env.StatusReady
  · by_cases hp : env.platformString e.Platform = env.platformString env.PlatformUnknown
    · simp [hs, hp, List.foldl_map]
    · simp [hs, hp, List.foldl_map]
  · simp [hs]

theorem addPairs_append (m : List (String × List String)) (l₁ l₂ : List (String × String)) :
    addPairs m (l₁ ++ l₂) = addPairs (addPairs m l₁) l₂ := by
  unfold addPairs; rw [List.foldl_append]

theorem foldl_mergeWorker_eq (env : Env) (es : List DecentralizedWorkerInfo)
    (maps : TopologyMaps) :
    es.foldl (mergeWorker env) maps =
      { fullNodeWorkerToNetworksMap :=
          addPairs maps.fullNodeWorkerToNetworksMap (es.flatMap (fullPairs env))
        networkToWorkersMap := addPairs maps.networkToWorkersMap (es.flatMap (netPairs env))
        platformToWorkersMap :=
          addPairs maps.platformToWorkersMap (es.flatMap (platformPairs env))
        tagToWorkersMap := addPairs maps.tagToWorkersMap (es.flatMap (tagPairs env)) } := by
  induction es generalizing maps with
  | nil => simp [addPairs]
  | cons e t ih =>
    simp only [List.foldl_cons, ih, mergeWorker_eq, List.flatMap_cons, addPairs_append]

theorem mergeReports_eq (env : Env) (reports : List ComponentInfo) (maps : TopologyMaps) :
    mergeReports env maps reports =
      (entriesOfReports env reports).foldl (mergeWorker env) maps := by
  unfold mergeReports entriesOfReports
  induction reports generalizing maps with
  | nil => simp
  | cons d t ih =>
    simp only [List.foldl_cons, ih, List.flatMap_cons, List.foldl_append, mergeReport]

theorem mem_bucket_addPairs (m : List (String × List String)) (pairs : List (String × String))
    (w y : String) : y ∈ bucket (addPairs m pairs) w ↔ y ∈ bucket m w ∨ (w, y) ∈ pairs := by
  unfold addPairs
  rw [mem_bucket_foldl_bucketAdd]
  constructor
  · rintro (h | ⟨p, hp, h1, h2⟩)
    · exact Or.inl h
    · refine Or.inr ?_
      rw [← h1, ← h2]; exact hp
  · rintro (h | h)
    · exact Or.inl h
    · exact Or.inr ⟨(w, y), h, rfl, rfl⟩

theorem keys_addPairs (m : List (String × List String)) (pairs : List (String × String))
    (w : String) :
    w ∈ (addPairs m pairs).map Prod.fst ↔ w ∈ m.map Prod.fst ∨ w ∈ pairs.map Prod.fst := by
  unfold addPairs
  induction pairs generalizing m with
  | nil => simp
  | cons p t ih =>
    simp only [List.foldl_cons, ih, keys_bucketAdd, List.map_cons, List.mem_cons]
    tauto

theorem mem_entriesOfReports (env : Env) (reports : List ComponentInfo)
    (e : DecentralizedWorkerInfo) :
    e ∈ entriesOfReports env reports ↔
      ∃ data ∈ reports, e ∈ filterDuplicateWorkers env data.Decentralized := by
  unfold entriesOfReports
  simp only [List.mem_flatMap]

theorem mem_flatMap_netPairs (env : Env) (es : List DecentralizedWorkerInfo) (n w : String) :
    (n, w) ∈ es.flatMap (netPairs env) ↔
      ∃ e ∈ es, e.Status = env.StatusReady ∧ env.networkString e.Network = n ∧
        renamedWorker env e = w := by
  simp only [List.mem_flatMap, netPairs]
  constructor
  · rintro ⟨e, he, hp⟩
    by_cases hs : e.Status = env.StatusReady
    · simp only [hs, ne_eq, not_true_eq_false, if_false, List.mem_singleton, Prod.mk.injEq] at hp
      exact ⟨e, he, hs, hp.1.symm, hp.2.symm⟩
    · simp [hs] at hp
  · rintro ⟨e, he, hs, hn, hw⟩
    refine ⟨e, he, ?_⟩
    simp [hs, hn, hw]

theorem mem_flatMap_fullPairs (env : Env) (es : List DecentralizedWorkerInfo) (w n : String) :
    (w, n) ∈ es.flatMap (fullPairs env) ↔
      ∃ e ∈ es, e.Status = env.StatusReady ∧ renamedWorker env e = w ∧
        env.networkString e.Network = n := by
  simp only [List.mem_flatMap, fullPairs]
  constructor
  · rintro ⟨e, he, hp⟩
    by_cases hs : e.Status = env.StatusReady
    · simp only [hs, ne_eq, not_true_eq_false, if_false, List.mem_singleton, Prod.mk.injEq] at hp
      exact ⟨e, he, hs, hp.1.symm, hp.2.symm⟩
    · simp [hs] at hp
  · rintro ⟨e, he, hs, hw, hn⟩
    refine ⟨e, he, ?_⟩
    simp [hs, hn, hw]

theorem mem_flatMap_platformPairs (env : Env) (es : List DecentralizedWorkerInfo)
    (p w : String) :
    (p, w) ∈ es.flatMap (platformPairs env) ↔
      p ≠ env.platformString env.PlatformUnknown ∧
      ∃ e ∈ es, e.Status = env.StatusReady ∧ env.platformString e.Platform = p ∧
        renamedWorker env e = w := by
  simp only [List.mem_flatMap, platformPairs]
  constructor
  · rintro ⟨e, he, hp⟩
    by_cases hs : e.Status = env.StatusReady
    · by_cases hu : env.platformString e.Platform = env.platformString env.PlatformUnknown
      · simp [hs, hu] at hp
      · simp only [hs, ne_eq, not_true_eq_false, if_false, hu, not_false_eq_true, if_true,
          List.mem_singleton, Prod.mk.injEq] at hp
        refine ⟨?_, e, he, hs, hp.1.symm, hp.2.symm⟩
        rw [hp.1]; exact hu
    · simp [hs] at hp
  · rintro ⟨hne, e, he, hs, hp, hw⟩
    refine ⟨e, he, ?_⟩
    have hu : ¬ env.platformString e.Platform = env.platformString env.PlatformUnknown := by
      rw [hp]; exact hne
    simp only [hs, ne_eq, not_true_eq_false, if_false, hu, not_false_eq_true, if_true,
      List.mem_singleton, Prod.mk.injEq]
    exact ⟨hp.symm, hw.symm⟩

theorem mem_flatMap_tagPairs (env : Env) (es : List DecentralizedWorkerInfo) (t w : String) :
    (t, w) ∈ es.flatMap (tagPairs env) ↔
      ∃ e ∈ es, e.Status = env.StatusReady ∧ (∃ tagX ∈ e.Tags, env.tagString tagX = t) ∧
        renamedWorker env e = w := by
  simp only [List.mem_flatMap, tagPairs]
  constructor
  · rintro ⟨e, he, hp⟩
    by_cases hs : e.Status = env.StatusReady
    · simp only [hs, ne_eq, not_true_eq_false, if_false, List.mem_map, Prod.mk.injEq] at hp
      obtain ⟨tagX, htag, h1, h2⟩ := hp
      exact ⟨e, he, hs, ⟨tagX, htag, h1⟩, h2⟩
    · simp [hs] at hp
  · rintro ⟨e, he, hs, ⟨tagX, htag, h1⟩, hw⟩
    refine ⟨e, he, ?_⟩
    simp only [hs, ne_eq, not_true_eq_false, if_false, List.mem_map, Prod.mk.injEq]
    exact ⟨tagX, htag, h1, hw⟩

theorem readyEntry_iff (env : Env) (polled : List (Stat × Option ComponentInfo))
    (e : DecentralizedWorkerInfo) :
    ReadyEntry env polled e ↔
      e ∈ entriesOfReports env (collectedReports polled) ∧ e.Status = env.StatusReady := by
  unfold ReadyEntry
  rw [mem_entriesOfReports]
  constructor
  · rintro ⟨d, hd, he, hs⟩
    exact ⟨⟨d, hd, he⟩, hs⟩
  · rintro ⟨⟨d, hd, he⟩, hs⟩
    exact ⟨d, hd, he, hs⟩

theorem generateMaps_maps_eq (env : Env) (polled : List (Stat × Option ComponentInfo)) :
    (generateMaps env polled).2 =
      { fullNodeWorkerToNetworksMap :=
          addPairs [] ((entriesOfReports env (collectedReports polled)).flatMap (fullPairs env))
        networkToWorkersMap :=
          addPairs [] ((entriesOfReports env (collectedReports polled)).flatMap (netPairs env))
        platformToWorkersMap :=
          addPairs []
            ((entriesOfReports env (collectedReports polled)).flatMap (platformPairs env))
        tagToWorkersMap :=
          addPairs []
            ((entriesOfReports env (collectedReports polled)).flatMap (tagPairs env)) } := by
  unfold generateMaps
  simp only [mergeReports_eq, foldl_mergeWorker_eq, TopologyMaps.empty]

/-- C5. Topology registration: in the four maps that `generateMaps` returns, a
worker name is listed under a network, under a tag, under a platform, and a
network is listed under a worker name, exactly when a de-duplicated collected
report has a Ready entry that carries that network, tag or platform and whose
(renamed) worker name is that name; for platforms only names other than that of
`PlatformUnknown` are registered, and that name is never a key. An entry that is
not Ready changes none of the four maps. -/
theorem generateMaps_registers_ready_entries (env : Env)
    (polled : List (Stat × Option ComponentInfo)) :
    (∀ n w, w ∈ bucket (generateMaps env polled).2.networkToWorkersMap n ↔
      ∃ e, ReadyEntry env polled e ∧ env.networkString e.Network = n ∧
        renamedWorker env e = w) ∧
    (∀ w n, n ∈ bucket (generateMaps env polled).2.fullNodeWorkerToNetworksMap w ↔
      ∃ e, ReadyEntry env polled e ∧ renamedWorker env e = w ∧
        env.networkString e.Network = n) ∧
    (∀ t w, w ∈ bucket (generateMaps env polled).2.tagToWorkersMap t ↔
      ∃ e, ReadyEntry env polled e ∧ (∃ tagX ∈ e.Tags, env.tagString tagX = t) ∧
        renamedWorker env e = w) ∧
    (∀ p w, w ∈ bucket (generateMaps env polled).2.platformToWorkersMap p ↔
      p ≠ env.platformString env.PlatformUnknown ∧
      ∃ e, ReadyEntry env polled e ∧ env.platformString e.Platform = p ∧
        renamedWorker env e = w) ∧
    mapGet (generateMaps env polled).2.platformToWorkersMap
      (env.platformString env.PlatformUnknown) = none ∧
    (∀ maps e, e.Status ≠ env.StatusReady → mergeWorker env maps e = maps) := by
  rw [generateMaps_maps_eq]
  refine ⟨?_, ?_, ?_, ?_, ?_, ?_⟩
  · intro n w
    simp only [mem_bucket_addPairs, bucket_nil, List.not_mem_nil, false_or,
      mem_flatMap_netPairs, readyEntry_iff]
    constructor
    · rintro ⟨e, he, hs, h⟩
      exact ⟨e, ⟨he, hs⟩, h⟩
    · rintro ⟨e, ⟨he, hs⟩, h⟩
      exact ⟨e, he, hs, h⟩
  · intro w n
    simp only [mem_bucket_addPairs, bucket_nil, List.not_mem_nil, false_or,
      mem_flatMap_fullPairs, readyEntry_iff]
    constructor
    · rintro ⟨e, he, hs, h⟩
      exact ⟨e, ⟨he, hs⟩, h⟩
    · rintro ⟨e, ⟨he, hs⟩, h⟩
      exact ⟨e, he, hs, h⟩
  · intro t w
    simp only [mem_bucket_addPairs, bucket_nil, List.not_mem_nil, false_or,
      mem_flatMap_tagPairs, readyEntry_iff]
    constructor
    · rintro ⟨e, he, hs, h⟩
      exact ⟨e, ⟨he, hs⟩, h⟩
    · rintro ⟨e, ⟨he, hs⟩, h⟩
      exact ⟨e, he, hs, h⟩
  · intro p w
    simp only [mem_bucket_addPairs, bucket_nil, List.not_mem_nil, false_or,
      mem_flatMap_platformPairs, readyEntry_iff]
    constructor
    · rintro ⟨hne, e, he, hs, h⟩
      exact ⟨hne, e, ⟨he, hs⟩, h⟩
    · rintro ⟨hne, e, ⟨he, hs⟩, h⟩
      exact ⟨hne, e, he, hs, h⟩
  · cases hg : mapGet (addPairs []
        ((entriesOfReports env (collectedReports polled)).flatMap (platformPairs env)))
        (env.platformString env.PlatformUnknown) with
    | none => rfl
    | some s =>
      exfalso
      have hk := (mapGet_isSome_iff _ _).1 ⟨s, hg⟩
      rw [keys_addPairs] at hk
      rcases hk with hk | hk
      · simp at hk
      · obtain ⟨q, hq, hq1⟩ := List.mem_map.1 hk
        have hq' : (env.platformString env.PlatformUnknown, q.2) ∈
            (entriesOfReports env (collectedReports polled)).flatMap (platformPairs env) := by
          rw [← hq1]; exact hq
        exact ((mem_flatMap_platformPairs _ _ _ _).1 hq').1 rfl
  · intro maps e hs
    unfold mergeWorker
    rw [if_pos hs]

/-! ## Idempotence of the merge and the published slices -/

theorem bucketAdd_of_mem (m : List (String × List String)) (k x : String)
    (h : x ∈ bucket m k) : bucketAdd m k x = m := by
  induction m with
  | nil => simp [bucket, mapGet] at h
  | cons q t ih =>
    obtain ⟨k', s⟩ := q
    by_cases hk : k' = k
    · subst hk
      simp only [bucket, mapGet, if_true, Option.getD_some] at h
      simp only [bucketAdd, if_true, setAdd_of_mem s x h]
    · simp only [bucket, mapGet, hk, if_false] at h
      simp only [bucketAdd, hk, if_false]
      rw [ih h]

theorem addPairs_of_mem (m : List (String × List String)) (pairs : List (String × String))
    (h : ∀ p ∈ pairs, p.2 ∈ bucket m p.1) : addPairs m pairs = m := by
  induction pairs with
  | nil => rfl
  | cons p t ih =>
    unfold addPairs
    rw [List.foldl_cons, bucketAdd_of_mem m p.1 p.2 (h p (List.mem_cons_self _ _))]
    exact ih (fun q hq => h q (List.mem_cons_of_mem _ hq))

theorem addPairs_again (pairs again : List (String × String))
    (h : ∀ p ∈ again, p ∈ pairs) : addPairs (addPairs [] pairs) again = addPairs [] pairs := by
  apply addPairs_of_mem
  intro p hp
  rw [mem_bucket_addPairs]
  exact Or.inr (h p hp)

theorem slicesNodup_bucketAdd (m : List (String × List String)) (k x : String)
    (h : SlicesNodup m) : SlicesNodup (bucketAdd m k x) := by
  induction m with
  | nil =>
    intro entry he
    simp only [bucketAdd, List.mem_singleton] at he
    rw [he]
    exact nodup_setAdd [] x List.nodup_nil
  | cons q t ih =>
    obtain ⟨k', s⟩ := q
    have ht : SlicesNodup t := fun entry he => h entry (List.mem_cons_of_mem _ he)
    have hs : s.Nodup := h (k', s) (List.mem_cons_self _ _)
    by_cases hk : k' = k
    · simp only [bucketAdd, hk, if_true]
      intro entry he
      rcases List.mem_cons.1 he with he | he
      · rw [he]; exact nodup_setAdd s x hs
      · exact ht entry he
    · simp only [bucketAdd, hk, if_false]
      intro entry he
      rcases List.mem_cons.1 he with he | he
      · rw [he]; exact hs
      · exact ih ht entry he

theorem published_addPairs (pairs : List (String × String)) :
    Published (transformAndAssign (addPairs [] pairs)) := by
  have hid : ∀ m : List (String × List String), transformAndAssign m = m := by
    intro m
    unfold transformAndAssign
    simp
  rw [hid]
  have hgen : ∀ (l : List (String × String)) (m : List (String × List String)),
      (m.map Prod.fst).Nodup → SlicesNodup m →
      ((addPairs m l).map Prod.fst).Nodup ∧ SlicesNodup (addPairs m l) := by
    intro l
    induction l with
    | nil => intro m h1 h2; exact ⟨h1, h2⟩
    | cons p t ih =>
      intro m h1 h2
      exact ih _ (nodup_keys_bucketAdd m p.1 p.2 h1) (slicesNodup_bucketAdd m p.1 p.2 h2)
  exact hgen pairs [] (by simp) (by intro e he; simp at he)

/-- C6. Merge idempotence: merging the collected reports a second time, in any
order, on top of the maps that `generateMaps` produced from them gives the same
four maps; and every map that `mapTransformAssign` publishes from them has
distinct keys and slices without a repeated name. -/
theorem mergeReports_idempotent (env : Env) (polled : List (Stat × Option ComponentInfo))
    (again : List ComponentInfo) (hagain : List.Perm again (collectedReports polled)) :
    mergeReports env (generateMaps env polled).2 again = (generateMaps env polled).2 ∧
    Published (mapTransformAssign (generateMaps env polled).2).WorkerToNetworksMap ∧
    Published (mapTransformAssign (generateMaps env polled).2).NetworkToWorkersMap ∧
    Published (mapTransformAssign (generateMaps env polled).2).PlatformToWorkersMap ∧
    Published (mapTransformAssign (generateMaps env polled).2).TagToWorkersMap := by
  rw [generateMaps_maps_eq]
  refine ⟨?_, published_addPairs _, published_addPairs _, published_addPairs _,
    published_addPairs _⟩
  rw [mergeReports_eq, foldl_mergeWorker_eq]
  have hsub : ∀ (c : DecentralizedWorkerInfo → List (String × String)),
      ∀ p ∈ (entriesOfReports env again).flatMap c,
        p ∈ (entriesOfReports env (collectedReports polled)).flatMap c := by
    intro c p hp
    rw [List.mem_flatMap] at hp ⊢
    obtain ⟨e, he, hpe⟩ := hp
    refine ⟨e, ?_, hpe⟩
    rw [mem_entriesOfReports] at he ⊢
    obtain ⟨d, hd, hed⟩ := he
    exact ⟨d, hagain.mem_iff.1 hd, hed⟩
  simp only [addPairs_again _ _ (hsub _)]

/-- C6, at two nodes that both report worker `A` on `net1`, one of them also
worker `B` on `net2`: merging the two reports again, in the other order, leaves
the four maps as they are. -/
theorem mergeReports_idempotent_witness :
    List.Perm
      [({ Decentralized := [readyA 1, readyB 2], RSS := none, Federated := [] } : ComponentInfo),
        { Decentralized := [readyA 1], RSS := none, Federated := [] }]
      (collectedReports
        [(demoStat "0xA" 10 6 0,
            some { Decentralized := [readyA 1], RSS := none, Federated := [] }),
          (demoStat "0xB" 10 6 0,
            some { Decentralized := [readyA 1, readyB 2], RSS := none, Federated := [] }),
          (demoStat "0xC" 10 6 0, none)]) ∧
    (generateMaps demoEnv
        [(demoStat "0xA" 10 6 0,
            some { Decentralized := [readyA 1], RSS := none, Federated := [] }),
          (demoStat "0xB" 10 6 0,
            some { Decentralized := [readyA 1, readyB 2], RSS := none, Federated := [] }),
          (demoStat "0xC" 10 6 0, none)]).2
      = { fullNodeWorkerToNetworksMap := [("A", ["net1"]), ("B", ["net2"])]
          networkToWorkersMap := [("net1", ["A"]), ("net2", ["B"])]
          platformToWorkersMap := [("p1", ["A"]), ("p2", ["B"])]
          tagToWorkersMap := [("t1", ["A"]), ("t2", ["B"])] } ∧
    mergeReports demoEnv
        (generateMaps demoEnv
          [(demoStat "0xA" 10 6 0,
              some { Decentralized := [readyA 1], RSS := none, Federated := [] }),
            (demoStat "0xB" 10 6 0,
              some { Decentralized := [readyA 1, readyB 2], RSS := none, Federated := [] }),
            (demoStat "0xC" 10 6 0, none)]).2
        [{ Decentralized := [readyA 1, readyB 2], RSS := none, Federated := [] },
          { Decentralized := [readyA 1], RSS := none, Federated := [] }]
      = (generateMaps demoEnv
          [(demoStat "0xA" 10 6 0,
              some { Decentralized := [readyA 1], RSS := none, Federated := [] }),
            (demoStat "0xB" 10 6 0,
              some { Decentralized := [readyA 1, readyB 2], RSS := none, Federated := [] }),
            (demoStat "0xC" 10 6 0, none)]).2 :=
  ⟨by decide, by decide,
   (mergeReports_idempotent demoEnv
      [(demoStat "0xA" 10 6 0,
          some { Decentralized := [readyA 1], RSS := none, Federated := [] }),
        (demoStat "0xB" 10 6 0,
          some { Decentralized := [readyA 1, readyB 2], RSS := none, Federated := [] }),
        (demoStat "0xC" 10 6 0, none)]
      [{ Decentralized := [readyA 1, readyB 2], RSS := none, Federated := [] },
        { Decentralized := [readyA 1], RSS := none, Federated := [] }]
      (by decide)).1⟩

/-! ## Selection sets -/

theorem mapGet_mapSet {α : Type} (m : List (String × α)) (k : String) (v : α) (a : String) :
    mapGet (mapSet m k v) a = if a = k then some v else mapGet m a := by
  induction m with
  | nil =>
    by_cases h : a = k
    · subst h; simp [mapSet, mapGet]
    · have h' : ¬ k = a := fun e => h e.symm
      simp [mapSet, mapGet, h, h']
  | cons q t ih =>
    obtain ⟨k', s⟩ := q
    by_cases hk : k' = k
    · subst hk
      by_cases h : a = k'
      · subst h; simp [mapSet, mapGet]
      · have h' : ¬ k' = a := fun e => h e.symm
        simp [mapSet, mapGet, h, h']
    · by_cases h : a = k
      · subst h
        simp only [mapSet, hk, if_false, mapGet, ih, if_true]
      · simp only [mapSet, hk, if_false, mapGet, ih, h]

theorem mapGet_ZAdd (members : List Z) (set : List (String × Int))
    (hnd : (members.map Z.Member).Nodup) (a : String) (sc : Int) :
    mapGet (ZAdd set members) a = some sc ↔
      (∃ z ∈ members, z.Member = a ∧ z.Score = sc) ∨
      (a ∉ members.map Z.Member ∧ mapGet set a = some sc) := by
  induction members generalizing set with
  | nil => simp [ZAdd]
  | cons z t ih =>
    rw [List.map_cons, List.nodup_cons] at hnd
    have hstep : ZAdd set (z :: t) = ZAdd (mapSet set z.Member z.Score) t := rfl
    rw [hstep, ih _ hnd.2, mapGet_mapSet]
    by_cases ha : a = z.Member
    · subst ha
      simp only [if_true, Option.some.injEq, List.mem_cons, exists_eq_or_imp, true_and,
        List.map_cons, not_or, not_true_eq_false, false_and, or_false]
      constructor
      · rintro (⟨z', hz', hm, hs⟩ | ⟨_, hs⟩)
        · exact absurd (hm ▸ List.mem_map_of_mem Z.Member hz') hnd.1
        · exact Or.inl hs
      · rintro (hs | h)
        · exact Or.inr ⟨hnd.1, hs⟩
        · exact Or.inl h
    · have ha' : ¬ z.Member = a := fun e => ha e.symm
      simp only [ha, if_false, List.mem_cons, exists_eq_or_imp, ha', false_and, false_or,
        List.map_cons, not_or, not_false_eq_true, true_and]

theorem mem_ZRevRangeWithScores (set : List (String × Int)) (z : Z) :
    z ∈ ZRevRangeWithScores set ↔ (z.Member, z.Score) ∈ set := by
  unfold ZRevRangeWithScores
  rw [(List.perm_insertionSort zRevOrder _).mem_iff, List.mem_map]
  constructor
  · rintro ⟨p, hp, rfl⟩
    exact hp
  · intro h
    exact ⟨(z.Member, z.Score), h, rfl⟩

theorem ZRem_nil (set : List (String × Int)) : ZRem set [] = set := by
  unfold ZRem; simp

theorem foldl_membersToAdd (env : Env) (nodeStats : List Stat) (acc : List Z) :
    nodeStats.foldl (fun membersToAdd stat =>
      if stat.EpochInvalidRequest < env.DemotionCountBeforeSlashing then
        membersToAdd ++ [({ Member := stat.Address, Score := stat.Score } : Z)]
      else membersToAdd) acc
      = acc ++ (nodeStats.filter (fun stat =>
          decide (stat.EpochInvalidRequest < env.DemotionCountBeforeSlashing))).map
          (fun stat => ({ Member := stat.Address, Score := stat.Score } : Z)) := by
  induction nodeStats generalizing acc with
  | nil => simp
  | cons stat t ih =>
    rw [List.foldl_cons, ih]
    by_cases h : stat.EpochInvalidRequest < env.DemotionCountBeforeSlashing
    · simp [h, List.filter_cons]
    · simp [h, List.filter_cons]

theorem prepareMembers_fst (env : Env)
    (filterMembersToRemove : List Z → List (String × EndpointCache) → List String)
    (members : List Z) (nodesEndpointCachesMap : List (String × EndpointCache))
    (nodeStats : List Stat) :
    (prepareMembers env filterMembersToRemove members nodesEndpointCachesMap nodeStats).1
      = (nodeStats.filter (fun stat =>
          decide (stat.EpochInvalidRequest < env.DemotionCountBeforeSlashing))).map
          (fun stat => ({ Member := stat.Address, Score := stat.Score } : Z)) := by
  unfold prepareMembers
  simp only [foldl_membersToAdd, List.nil_append]

theorem mem_filterMembersToRemove (members : List Z)
    (nodesEndpointCachesMap : List (String × EndpointCache)) (x : String) :
    x ∈ filterMembersToRemove members nodesEndpointCachesMap ↔
      (∃ z ∈ members, z.Member = x) ∧ mapGet nodesEndpointCachesMap x = none := by
  unfold filterMembersToRemove
  simp only [List.mem_map, List.mem_filter, Option.isNone_iff_eq_none]
  constructor
  · rintro ⟨z, ⟨hz, hnone⟩, rfl⟩
    exact ⟨⟨z, hz, rfl⟩, hnone⟩
  · rintro ⟨⟨z, hz, rfl⟩, hnone⟩
    exact ⟨z, ⟨hz, hnone⟩, rfl⟩

theorem keys_nodesEndpointCachesMapOf (nodeStats : List Stat) (a : String) :
    a ∈ (nodesEndpointCachesMapOf nodeStats).map Prod.fst ↔ a ∈ nodeStats.map Stat.Address := by
  have hgen : ∀ (l : List Stat) (m : List (String × EndpointCache)),
      a ∈ (l.foldl (fun m stat =>
        mapSet m stat.Address { Endpoint := stat.Endpoint, AccessToken := stat.AccessToken })
        m).map Prod.fst ↔ a ∈ m.map Prod.fst ∨ a ∈ l.map Stat.Address := by
    intro l
    induction l with
    | nil => intro m; simp
    | cons stat t ih =>
      intro m
      rw [List.foldl_cons, ih, keys_mapSet]
      simp only [List.map_cons, List.mem_cons]
      tauto
  unfold nodesEndpointCachesMapOf
  rw [hgen]
  simp

theorem mapGet_nodesEndpointCachesMapOf_none (nodeStats : List Stat) (a : String) :
    mapGet (nodesEndpointCachesMapOf nodeStats) a = none ↔ a ∉ nodeStats.map Stat.Address := by
  rw [← keys_nodesEndpointCachesMapOf, ← mapGet_isSome_iff]
  cases mapGet (nodesEndpointCachesMapOf nodeStats) a with
  | none => simp
  | some v => simp

theorem mapGet_ZRem (set : List (String × Int)) (members : List String) (a : String) :
    mapGet (ZRem set members) a = if a ∈ members then none else mapGet set a := by
  unfold ZRem
  induction set with
  | nil => simp [mapGet]
  | cons p t ih =>
    obtain ⟨k, v⟩ := p
    by_cases hk : k ∈ members
    · have hfilter : List.filter (fun p : String × Int => decide (p.1 ∉ members)) ((k, v) :: t)
          = List.filter (fun p : String × Int => decide (p.1 ∉ members)) t := by
        simp [List.filter_cons, hk]
      rw [hfilter, ih]
      by_cases ha : a ∈ members
      · simp [ha]
      · have hne : ¬ k = a := fun e => ha (e ▸ hk)
        simp [ha, mapGet, hne]
    · have hfilter : List.filter (fun p : String × Int => decide (p.1 ∉ members)) ((k, v) :: t)
          = (k, v) :: List.filter (fun p : String × Int => decide (p.1 ∉ members)) t := by
        simp [List.filter_cons, hk]
      rw [hfilter]
      by_cases hka : k = a
      · subst hka
        simp [mapGet, hk]
      · simp only [mapGet, hka, if_false, ih]

theorem staleOnline_offline (c : Int) (node : Node) :
    staleOnline c { node with Status := NodeStatusOffline } = false := by
  simp [staleOnline, NodeStatusOffline, NodeStatusOnline]

theorem staleCount_updateBatch (c : Int) (table : List Node) :
    staleCount c (updateBatch c table).1 = 0 := by
  unfold staleCount updateBatch
  rw [List.length_eq_zero, List.filter_eq_nil_iff]
  intro node hnode
  rw [List.mem_map] at hnode
  obtain ⟨n0, _, rfl⟩ := hnode
  by_cases hs : staleOnline c n0 = true
  · simp only [hs, if_true, staleOnline_offline]
    exact Bool.false_ne_true
  · simp only [hs, if_false]
    exact hs

theorem updateBatch_of_clean (c : Int) (table : List Node) (h : staleCount c table = 0) :
    updateBatch c table = (table, 0) := by
  unfold updateBatch
  rw [h]
  unfold staleCount at h
  rw [List.length_eq_zero, List.filter_eq_nil_iff] at h
  congr 1
  have hmap : ∀ node ∈ table,
      (if staleOnline c node then { node with Status := NodeStatusOffline } else node) = node := by
    intro node hnode
    have := h node hnode
    rw [if_neg this]
  rw [List.map_congr_left hmap, List.map_id']

theorem UpdateNodesStatusOffline_run (c : Int) (fuel : Nat) (table : List Node) :
    UpdateNodesStatusOffline c (fuel + 2) table
      = some ((updateBatch c table).1,
          if staleCount c table = 0 then [0] else [staleCount c table, 0]) := by
  have hsnd : (updateBatch c table).2 = staleCount c table := rfl
  by_cases hz : staleCount c table = 0
  · simp only [UpdateNodesStatusOffline, hsnd, hz, if_true]
  · have hclean := updateBatch_of_clean c (updateBatch c table).1 (staleCount_updateBatch c table)
    simp only [UpdateNodesStatusOffline, hsnd, hz, if_false, hclean, if_true, Option.map_some']

theorem staleCount_onlineNodes (n : Nat) : staleCount 100 (onlineNodes n) = n := by
  unfold staleCount onlineNodes
  have hall : ∀ node ∈ (List.range n).map (fun i => onlineNode ("n" ++ toString i) 50),
      staleOnline 100 node = true := by
    intro node hnode
    rw [List.mem_map] at hnode
    obtain ⟨i, _, rfl⟩ := hnode
    simp [staleOnline, onlineNode]
  rw [List.filter_eq_self.2 hall, List.length_map, List.length_range]

/-- C8. The sweep is not batched: on a table of 2500 nodes that are Online with
a last heartbeat before the cutoff, `UpdateNodesStatusOffline` transitions all
2500 rows in its first statement and stops after a second one that affects no
row; it runs 2 statements, not `⌈2500/1000⌉ = 3` batches of at most 1000 rows.
It terminates and leaves no stale Online node. -/
theorem UpdateNodesStatusOffline_uncapped :
    staleCount 100 (onlineNodes 2500) = 2500 ∧
    UpdateNodesStatusOffline 100 3 (onlineNodes 2500)
      = some ((updateBatch 100 (onlineNodes 2500)).1, [2500, 0]) ∧
    staleCount 100 (updateBatch 100 (onlineNodes 2500)).1 = 0 ∧
    ceilDiv 2500 1000 = 3 ∧
    ([2500, 0] : List Nat).length = 2 ∧
    1000 < 2500 := by
  refine ⟨staleCount_onlineNodes 2500, ?_, staleCount_updateBatch _ _, by decide, rfl,
    by decide⟩
  rw [UpdateNodesStatusOffline_run 100 1 (onlineNodes 2500), staleCount_onlineNodes]
  rfl

/-! ## The assignment transaction -/

/-- C9. Assignment transaction atomicity: when marking the old rows succeeds and
the insert (`SaveNodeWorkers`) of the rows that `updateNodeWorkers` built fails,
`updateNodeWorkers` returns the wrapped error and the worker-assignment table
is the table from before the call. -/
theorem updateNodeWorkers_insert_failure_atomic (env : Env) (db : Database)
    (topology : List (String × List String)) (stats : List Stat)
    (nodeToDataMap : List (String × ComponentInfo)) (epoch : Int)
    (table table1 : List WorkerRow) (cause : String)
    (hmark : db.UpdateNodeWorkerActive table = Except.ok table1)
    (hinsert : db.SaveNodeWorkers table1
      (updateNodeWorkers env db topology stats nodeToDataMap epoch table).workerList
      = Except.error cause) :
    (updateNodeWorkers env db topology stats nodeToDataMap epoch table).err
      = Except.error ("save node workers: " ++ cause) ∧
    (updateNodeWorkers env db topology stats nodeToDataMap epoch table).table = table := by
  simp only [updateNodeWorkers] at hinsert ⊢
  have hunit : saveUnitOfWork db
      ((stats.map (evaluateStat env topology nodeToDataMap epoch)).map Prod.snd).flatten table
      = Except.error ("save node workers: " ++ cause) := by
    simp only [saveUnitOfWork, hmark, hinsert]
  simp only [WithTransaction, hunit, and_self]

/-- C9, at a table that holds an active row of epoch 6 and a node that is not
full at epoch 7, with a storage client whose insert fails: the error comes
back, the row of epoch 6 is still active and no row of epoch 7 is there. -/
theorem updateNodeWorkers_insert_failure_atomic_witness :
    failingInsertDb.UpdateNodeWorkerActive [oldRow]
      = Except.ok [{ oldRow with IsActive := false }] ∧
    failingInsertDb.SaveNodeWorkers [{ oldRow with IsActive := false }]
      (updateNodeWorkers demoEnv failingInsertDb [("A", ["net1", "net2"])]
        [demoStat "0xB" 10 6 0]
        [("0xB", { Decentralized := [readyA 1], RSS := none, Federated := [] })] 7
        [oldRow]).workerList = Except.error "insert failed" ∧
    (updateNodeWorkers demoEnv failingInsertDb [("A", ["net1", "net2"])]
        [demoStat "0xB" 10 6 0]
        [("0xB", { Decentralized := [readyA 1], RSS := none, Federated := [] })] 7
        [oldRow]).workerList
      = [{ EpochID := 7, Address := "0xB", Network := "net1", Name := "Worker A",
           IsActive := true }] ∧
    ((updateNodeWorkers demoEnv failingInsertDb [("A", ["net1", "net2"])]
        [demoStat "0xB" 10 6 0]
        [("0xB", { Decentralized := [readyA 1], RSS := none, Federated := [] })] 7
        [oldRow]).err = Except.error ("save node workers: " ++ "insert failed") ∧
      (updateNodeWorkers demoEnv failingInsertDb [("A", ["net1", "net2"])]
        [demoStat "0xB" 10 6 0]
        [("0xB", { Decentralized := [readyA 1], RSS := none, Federated := [] })] 7
        [oldRow]).table = [oldRow]) :=
  ⟨rfl, rfl, by decide,
   updateNodeWorkers_insert_failure_atomic demoEnv failingInsertDb [("A", ["net1", "net2"])]
     [demoStat "0xB" 10 6 0]
     [("0xB", { Decentralized := [readyA 1], RSS := none, Federated := [] })] 7
     [oldRow] [{ oldRow with IsActive := false }] "insert failed" rfl rfl⟩

/-! ## The topology after a failed cycle -/

/-- C10 as stated fails: with the topology `A ↦ {net1}` published, a cycle in
which one node reports worker `B` on `net2` and every cache write fails returns
the error, and the four topology variables hold the topology of this cycle,
not their values from before the call. -/
theorem maintainNodeWorker_failed_cycle_counterexample :
    (maintainNodeWorker demoEnv cacheDown workingDb 7
      [(demoStat "0xB" 10 6 0,
        some { Decentralized := [readyB 2], RSS := none, Federated := [] })] demoWorld).err
      = Except.error "cache unavailable" ∧
    (maintainNodeWorker demoEnv cacheDown workingDb 7
      [(demoStat "0xB" 10 6 0,
        some { Decentralized := [readyB 2], RSS := none, Federated := [] })]
      demoWorld).world.globals
      = { WorkerToNetworksMap := [("B", ["net2"])]
          NetworkToWorkersMap := [("net2", ["B"])]
          PlatformToWorkersMap := [("p2", ["B"])]
          TagToWorkersMap := [("t2", ["B"])] } ∧
    (maintainNodeWorker demoEnv cacheDown workingDb 7
      [(demoStat "0xB" 10 6 0,
        some { Decentralized := [readyB 2], RSS := none, Federated := [] })]
      demoWorld).world.globals ≠ demoWorld.globals := by
  refine ⟨rfl, by decide, by decide⟩

/-- C10, amended. `maintainNodeWorker` publishes before it persists: on every
return, and so whenever it returns an error of the cache write or of the
worker-assignment transaction, the four topology variables hold what
`mapTransformAssign` publishes from the maps that `generateMaps` built from
this cycle's reports. -/
theorem maintainNodeWorker_publishes_first (env : Env) (setError : String → Option String)
    (db : Database) (epoch : Int) (polled : List (Stat × Option ComponentInfo))
    (world : World) :
    (maintainNodeWorker env setError db epoch polled world).world.globals
      = mapTransformAssign (generateMaps env polled).2 := by
  unfold maintainNodeWorker
  simp only []
  cases (setMapCache env setError (mapTransformAssign (generateMaps env polled).2)
    world.cache).1 with
  | error err => rfl
  | ok u => rfl

/-! ## The collection step on malformed responses -/

theorem pollAll_append (env : Env) (a b : List (Stat × Except String WorkerResponse)) :
    pollAll env (a ++ b) =
      match pollAll env a, pollAll env b with
      | some x, some y => some (x ++ y)
      | _, _ => none := by
  induction a with
  | nil =>
    cases hb : pollAll env b <;> simp [pollAll, hb]
  | cons p t ih =>
    obtain ⟨stat, decoded⟩ := p
    have hstep : pollAll env ((stat, decoded) :: t ++ b) =
        match pollOf env decoded, pollAll env (t ++ b) with
        | some poll, some polled => some ((stat, poll) :: polled)
        | _, _ => none := rfl
    have hhead : pollAll env ((stat, decoded) :: t) =
        match pollOf env decoded, pollAll env t with
        | some poll, some polled => some ((stat, poll) :: polled)
        | _, _ => none := rfl
    rw [hstep, hhead, ih]
    cases pollOf env decoded <;> cases pollAll env t <;> cases pollAll env b <;> rfl

theorem generateMaps_skip_none (env : Env) (a b : List (Stat × Option ComponentInfo))
    (stat : Stat) : generateMaps env (a ++ (stat, none) :: b) = generateMaps env (a ++ b) := by
  unfold generateMaps collectedReports nodeToDataMapOf
  simp only [List.filterMap_append, List.filterMap_cons, List.foldl_append, List.foldl_cons]

/-- The part of per-node isolation that holds: a node whose poll ends with an
error (the body is not valid JSON, the fetch fails) leaves the result map and
the four topology maps as if it had not been polled. -/
theorem generateMapsOfResponses_error_isolated (env : Env)
    (pre post : List (Stat × Except String WorkerResponse)) (stat : Stat) (err : String) :
    generateMapsOfResponses env (pre ++ (stat, Except.error err) :: post)
      = generateMapsOfResponses env (pre ++ post) := by
  unfold generateMapsOfResponses
  rw [pollAll_append, pollAll_append]
  have hcons : pollAll env ((stat, Except.error err) :: post) =
      (pollAll env post).map (fun polled => (stat, none) :: polled) := by
    simp only [pollAll, pollOf, getNodeWorkerStatus]
    cases pollAll env post <;> rfl
  rw [hcons]
  cases pollAll env pre with
  | none => rfl
  | some x =>
    cases pollAll env post with
    | none => rfl
    | some y =>
      simp only [Option.map_some']
      rw [generateMaps_skip_none]

/-- C11. Per-node failure isolation breaks on two of the three malformed
responses: for the document `{}` (no `data` object) and for a decentralized
list with a null entry, `getNodeWorkerStatus` follows a nil pointer, so the
collection faults instead of leaving the node out; with the healthy node alone,
or next to a node whose body fails to decode, the maps are built. -/
theorem getNodeWorkerStatus_faults_on_nil :
    getNodeWorkerStatus demoEnv emptyDocument = Outcome.fault ∧
    getNodeWorkerStatus demoEnv nullEntryDocument = Outcome.fault ∧
    generateMapsOfResponses demoEnv
      [(demoStat "0xA" 10 6 0, healthyDocument), (demoStat "0xB" 10 6 0, emptyDocument)]
      = Outcome.fault ∧
    generateMapsOfResponses demoEnv
      [(demoStat "0xA" 10 6 0, healthyDocument), (demoStat "0xB" 10 6 0, nullEntryDocument)]
      = Outcome.fault ∧
    generateMapsOfResponses demoEnv
      [(demoStat "0xA" 10 6 0, healthyDocument),
       (demoStat "0xB" 10 6 0, Except.error "invalid character")]
      = generateMapsOfResponses demoEnv [(demoStat "0xA" 10 6 0, healthyDocument)] ∧
    generateMapsOfResponses demoEnv [(demoStat "0xA" 10 6 0, healthyDocument)]
      = Outcome.ok
          ([("0xA", { Decentralized := [readyA 1], RSS := none, Federated := [] })],
           { fullNodeWorkerToNetworksMap := [("A", ["net1"])]
             networkToWorkersMap := [("net1", ["A"])]
             platformToWorkersMap := [("p1", ["A"])]
             tagToWorkersMap := [("t1", ["A"])] }) := by
  refine ⟨rfl, rfl, by decide, by decide, by decide, by decide⟩

/-! ## FindNodeEvents -/

theorem splitChars_ne_nil (sep : Char) (cs : List Char) : splitChars sep cs ≠ [] := by
  induction cs with
  | nil => simp [splitChars]
  | cons c t ih =>
    unfold splitChars
    by_cases h : c = sep
    · simp [h]
    · simp only [h, if_false]
      cases hs : splitChars sep t with
      | nil => simp
      | cons field fields => simp

theorem length_splitChars (sep : Char) (cs : List Char) :
    (splitChars sep cs).length = cs.count sep + 1 := by
  induction cs with
  | nil => simp [splitChars]
  | cons c t ih =>
    unfold splitChars
    by_cases h : c = sep
    · subst h
      simp [ih]
    · have hcount : (c :: t).count sep = t.count sep := by
        rw [List.count_cons]
        have : (c == sep) = false := by simpa using h
        simp [this]
      simp only [h, if_false, hcount]
      cases hs : splitChars sep t with
      | nil => exact absurd hs (splitChars_ne_nil sep t)
      | cons field fields =>
        rw [hs] at ih
        simpa using ih

/-- C12. Malformed-cursor rejection: a cursor that does not split on `:` into
exactly three fields (it does not hold exactly two colons) makes `FindNodeEvents`
return the error `invalid cursor` with the cursor text and no events, before any
storage query is issued; with a nil cursor the call issues its query and
returns events, never this error. -/
theorem FindNodeEvents_invalid_cursor (table : List NodeEvent) (nodeAddress : common.Address)
    (cursor : String) (limit : Nat) (hfields : (stringsSplit cursor ':').length ≠ 3) :
    (FindNodeEvents table nodeAddress (some cursor) limit).events
      = Except.error ("invalid cursor: " ++ cursor) ∧
    (FindNodeEvents table nodeAddress (some cursor) limit).queries = [] ∧
    (stringsSplit cursor ':').length = cursor.toList.count ':' + 1 ∧
    (FindNodeEvents table nodeAddress none limit).events
      = Except.ok (((table.filter (fun row =>
          decide (row.AddressFrom = nodeAddress))).insertionSort eventOrder).take limit) := by
  refine ⟨?_, ?_, ?_, rfl⟩
  · simp only [FindNodeEvents, hfields, ne_eq, not_false_eq_true, if_true]
  · simp only [FindNodeEvents, hfields, ne_eq, not_false_eq_true, if_true]
  · unfold stringsSplit
    rw [List.length_map, length_splitChars]

/-- C12, at the cursors `0xh1:2` (two fields) and `0xh1:2:5:7` (four fields)
on the example table. -/
theorem FindNodeEvents_invalid_cursor_witness :
    (stringsSplit "0xh1:2" ':').length ≠ 3 ∧
    ((FindNodeEvents demoEvents "0xA" (some "0xh1:2") 10).events
        = Except.error ("invalid cursor: " ++ "0xh1:2") ∧
      (FindNodeEvents demoEvents "0xA" (some "0xh1:2") 10).queries = [] ∧
      (stringsSplit "0xh1:2" ':').length = "0xh1:2".toList.count ':' + 1 ∧
      (FindNodeEvents demoEvents "0xA" none 10).events
        = Except.ok (((demoEvents.filter (fun row =>
            decide (row.AddressFrom = "0xA"))).insertionSort eventOrder).take 10)) ∧
    stringsSplit "0xh1:2:5:7" ':' = ["0xh1", "2", "5", "7"] ∧
    (FindNodeEvents demoEvents "0xA" (some "0xh1:2:5:7") 10).queries = [] :=
  ⟨by decide, FindNodeEvents_invalid_cursor demoEvents "0xA" "0xh1:2" 10 (by decide),
   by decide, by decide⟩

/-- The `WHERE` clause never holds for a row of the cursor's own block and
transaction: its third condition asks for a smaller transaction index as well. -/
theorem whereClause_same_transaction (nodeAddress : common.Address) (nodeEvent row : NodeEvent)
    (hblock : row.BlockNumber = nodeEvent.BlockNumber)
    (htx : row.TransactionIndex = nodeEvent.TransactionIndex) :
    whereClause nodeAddress (some nodeEvent) row = false := by
  simp [whereClause, hblock, htx]

/-- The `WHERE` clause holds for every row of an earlier block, whatever its
address: the address condition is joined to the third condition only. -/
theorem whereClause_earlier_block (nodeAddress : common.Address) (nodeEvent row : NodeEvent)
    (hblock : row.BlockNumber < nodeEvent.BlockNumber) :
    whereClause nodeAddress (some nodeEvent) row = true := by
  simp [whereClause, hblock]

/-- C18. Cursor pagination leaves a gap and lets other addresses through: on
the example table, with the cursor naming the log 5 of transaction 2 in block
10, `FindNodeEvents` for node `0xA` returns the event of the earlier
transaction and both events of block 9, the one of node `0xB` included; it does
not return the log 3 of the same transaction of node `0xA`, which comes
strictly before the cursor in the descending order. -/
theorem FindNodeEvents_skips_same_transaction :
    findCursorEvent demoEvents "0xh1" "2" "5" = some (demoEvent "0xh1" 10 2 5 "0xA") ∧
    demoEvent "0xh1" 10 2 3 "0xA" ∈ demoEvents ∧
    strictlyBefore (demoEvent "0xh1" 10 2 5 "0xA") (demoEvent "0xh1" 10 2 3 "0xA") ∧
    (FindNodeEvents demoEvents "0xA" (some "0xh1:2:5") 10).events
      = Except.ok [demoEvent "0xh0" 10 1 9 "0xA", demoEvent "0xg8" 9 5 1 "0xB",
          demoEvent "0xg7" 9 4 0 "0xA"] ∧
    demoEvent "0xh1" 10 2 3 "0xA" ∉
      [demoEvent "0xh0" 10 1 9 "0xA", demoEvent "0xg8" 9 5 1 "0xB",
        demoEvent "0xg7" 9 4 0 "0xA"] ∧
    (demoEvent "0xg8" 9 5 1 "0xB").AddressFrom ≠ "0xA" := by
  refine ⟨by decide, by decide, by decide, rfl, by decide, by decide⟩

/-! ## The counters and the assignment rows of updateNodeWorkers -/

theorem uniqueNetworks_foldl_spec (ws : List DecentralizedWorkerInfo)
    (s : List network.Network) (hs : s.Nodup) :
    (ws.foldl (fun s info => if info.Network ∈ s then s else s ++ [info.Network]) s).Nodup ∧
    ∀ n, n ∈ ws.foldl (fun s info => if info.Network ∈ s then s else s ++ [info.Network]) s ↔
      n ∈ s ∨ n ∈ ws.map (fun w => w.Network) := by
  induction ws generalizing s with
  | nil => simpa using hs
  | cons w t ih =>
    simp only [List.foldl_cons]
    by_cases hmem : w.Network ∈ s
    · simp only [hmem, if_true]
      refine ⟨(ih s hs).1, ?_⟩
      intro n
      rw [(ih s hs).2 n]
      simp only [List.map_cons, List.mem_cons]
      constructor
      · rintro (h | h)
        · exact Or.inl h
        · exact Or.inr (Or.inr h)
      · rintro (h | h | h)
        · exact Or.inl h
        · exact Or.inl (h ▸ hmem)
        · exact Or.inr h
    · simp only [hmem, if_false]
      have hs' : (s ++ [w.Network]).Nodup := by
        rw [List.nodup_append]
        refine ⟨hs, List.nodup_singleton _, ?_⟩
        intro a ha hb
        rw [List.mem_singleton] at hb
        exact hmem (hb ▸ ha)
      refine ⟨(ih _ hs').1, ?_⟩
      intro n
      rw [(ih _ hs').2 n]
      simp only [List.mem_append, List.mem_singleton, List.map_cons, List.mem_cons]
      tauto

theorem length_uniqueNetworks (ws : List DecentralizedWorkerInfo) :
    (uniqueNetworks ws).length = distinctNetworks ws := by
  unfold uniqueNetworks distinctNetworks
  have h := uniqueNetworks_foldl_spec ws [] List.nodup_nil
  apply List.Perm.length_eq
  rw [List.perm_ext_iff_of_nodup h.1 (List.nodup_dedup _)]
  intro n
  rw [h.2 n, List.mem_dedup]
  simp

/-- C13 as stated fails: a node that reports worker `A` Ready on `net1` and not
Ready on `net2` gets `DecentralizedNetwork` 2, while its Ready entries carry one
network; `Indexer` is 2, the number of entries. -/
theorem updateNodeWorkers_counts_counterexample :
    (updateNodeWorkers demoEnv workingDb [] [demoStat "0xA" 10 7 0]
      [("0xA", { Decentralized := [readyA 1, notReadyA 2], RSS := none, Federated := [] })] 7
      []).stats.map (fun stat => (stat.DecentralizedNetwork, stat.Indexer)) = [(2, 2)] ∧
    distinctNetworks (readyWorkers demoEnv [readyA 1, notReadyA 2]) = 1 ∧
    distinctNetworks [readyA 1, notReadyA 2] = 2 := by
  decide

/-- C13, amended. For a `Stat` of a node that has a report, `updateNodeWorkers`
sets `DecentralizedNetwork` to the number of distinct networks among all the
decentralized worker entries of the report, Ready or not, and `Indexer` to the
number of those entries. -/
theorem updateNodeWorkers_counts (env : Env) (db : Database)
    (topology : List (String × List String)) (stats : List Stat)
    (nodeToDataMap : List (String × ComponentInfo)) (epoch : Int) (table : List WorkerRow)
    (i : Nat) (stat : Stat) (workerInfo : ComponentInfo) (hi : stats[i]? = some stat)
    (hreport : mapGet nodeToDataMap stat.Address = some workerInfo) :
    ∃ stat', (updateNodeWorkers env db topology stats nodeToDataMap epoch table).stats[i]?
        = some stat' ∧
      stat'.DecentralizedNetwork = (distinctNetworks workerInfo.Decentralized : Int) ∧
      stat'.Indexer = (workerInfo.Decentralized.length : Int) := by
  refine ⟨(evaluateStat env topology nodeToDataMap epoch stat).1, ?_, ?_, ?_⟩
  · simp only [updateNodeWorkers, List.map_map, List.getElem?_map, hi, Option.map_some',
      Function.comp_apply]
  · rw [← length_uniqueNetworks]
    simp only [evaluateStat, hreport]
    split <;> rfl
  · simp only [evaluateStat, hreport]
    split <;> rfl

/-- C13, amended, at the node of the counterexample. -/
theorem updateNodeWorkers_counts_witness :
    [demoStat "0xA" 10 7 0][0]? = some (demoStat "0xA" 10 7 0) ∧
    mapGet [("0xA", ({ Decentralized := [readyA 1, notReadyA 2], RSS := none, Federated := [] } :
      ComponentInfo))] (demoStat "0xA" 10 7 0).Address
      = some { Decentralized := [readyA 1, notReadyA 2], RSS := none, Federated := [] } ∧
    ∃ stat', (updateNodeWorkers demoEnv workingDb [] [demoStat "0xA" 10 7 0]
        [("0xA", { Decentralized := [readyA 1, notReadyA 2], RSS := none, Federated := [] })] 7
        []).stats[0]? = some stat' ∧
      stat'.DecentralizedNetwork = (distinctNetworks [readyA 1, notReadyA 2] : Int) ∧
      stat'.Indexer = (([readyA 1, notReadyA 2] : List DecentralizedWorkerInfo).length : Int) :=
  ⟨rfl, by decide,
   updateNodeWorkers_counts demoEnv workingDb [] [demoStat "0xA" 10 7 0]
     [("0xA", { Decentralized := [readyA 1, notReadyA 2], RSS := none, Federated := [] })] 7 []
     0 (demoStat "0xA" 10 7 0)
     { Decentralized := [readyA 1, notReadyA 2], RSS := none, Federated := [] } rfl (by decide)⟩

theorem evaluateStat_rows (env : Env) (topology : List (String × List String))
    (nodeToDataMap : List (String × ComponentInfo)) (epoch : Int) (stat : Stat)
    (hlo : 0 ≤ epoch) (hhi : epoch < 9223372036854775808) :
    (evaluateStat env topology nodeToDataMap epoch stat).2
      = assignmentRowsOf env topology nodeToDataMap epoch stat := by
  have hepoch : epoch % 18446744073709551616 = epoch :=
    Int.emod_eq_of_lt hlo (by omega)
  unfold evaluateStat assignmentRowsOf
  cases hg : mapGet nodeToDataMap stat.Address with
  | none => rfl
  | some workerInfo =>
    simp only [buildNodeWorkers, hepoch]
    cases determineFullNode env topology workerInfo.Decentralized <;> simp

/-- C14. Worker-assignment rows: for an epoch number that is not negative, the
list that `updateNodeWorkers` hands to `SaveNodeWorkers` is, `Stat` after `Stat`,
one row per decentralized worker entry of every reporting node that
`determineFullNode` classifies as not full, and nothing for a node that is full
or has no report; every row is active, carries the current epoch, and the
address and network of its node and entry. -/
theorem updateNodeWorkers_workerList (env : Env) (db : Database)
    (topology : List (String × List String)) (stats : List Stat)
    (nodeToDataMap : List (String × ComponentInfo)) (epoch : Int) (table : List WorkerRow)
    (hlo : 0 ≤ epoch) (hhi : epoch < 9223372036854775808) :
    (updateNodeWorkers env db topology stats nodeToDataMap epoch table).workerList
      = stats.flatMap (assignmentRowsOf env topology nodeToDataMap epoch) ∧
    ∀ row ∈ (updateNodeWorkers env db topology stats nodeToDataMap epoch table).workerList,
      row.IsActive = true ∧ row.EpochID = epoch ∧
      ∃ stat ∈ stats, ∃ workerInfo, mapGet nodeToDataMap stat.Address = some workerInfo ∧
        determineFullNode env topology workerInfo.Decentralized = false ∧
        row.Address = stat.Address ∧
        ∃ w ∈ workerInfo.Decentralized, row.Network = env.networkString w.Network := by
  have hlist : (updateNodeWorkers env db topology stats nodeToDataMap epoch table).workerList
      = stats.flatMap (assignmentRowsOf env topology nodeToDataMap epoch) := by
    simp only [updateNodeWorkers, List.map_map]
    rw [List.flatMap_def]
    congr 1
    apply List.map_congr_left
    intro stat _
    exact evaluateStat_rows env topology nodeToDataMap epoch stat hlo hhi
  refine ⟨hlist, ?_⟩
  intro row hrow
  rw [hlist, List.mem_flatMap] at hrow
  obtain ⟨stat, hstat, hmem⟩ := hrow
  unfold assignmentRowsOf at hmem
  cases hg : mapGet nodeToDataMap stat.Address with
  | none => simp [hg] at hmem
  | some workerInfo =>
    simp only [hg] at hmem
    cases hfull : determineFullNode env topology workerInfo.Decentralized with
    | true => simp [hfull] at hmem
    | false =>
      simp only [hfull, Bool.false_eq_true, if_false, List.mem_map] at hmem
      obtain ⟨w, hw, rfl⟩ := hmem
      exact ⟨rfl, rfl, stat, hstat, workerInfo, hg, hfull, rfl, w, hw, rfl⟩

/-- C14, at epoch 7 with a topology `A ↦ {net1, net2}`: node `0xA` reports both
networks and is full, node `0xB` reports `net1` only, node `0xC` has no report;
the list holds the one row of `0xB`. -/
theorem updateNodeWorkers_workerList_witness :
    (0 : Int) ≤ 7 ∧ (7 : Int) < 9223372036854775808 ∧
    ((updateNodeWorkers demoEnv workingDb [("A", ["net1", "net2"])]
        [demoStat "0xA" 10 6 0, demoStat "0xB" 10 6 0, demoStat "0xC" 10 6 0]
        [("0xA", { Decentralized := [readyA 1, readyA 2], RSS := none, Federated := [] }),
         ("0xB", { Decentralized := [readyA 1], RSS := none, Federated := [] })] 7 []).workerList
      = [demoStat "0xA" 10 6 0, demoStat "0xB" 10 6 0, demoStat "0xC" 10 6 0].flatMap
          (assignmentRowsOf demoEnv [("A", ["net1", "net2"])]
            [("0xA", { Decentralized := [readyA 1, readyA 2], RSS := none, Federated := [] }),
             ("0xB", { Decentralized := [readyA 1], RSS := none, Federated := [] })] 7)) ∧
    (updateNodeWorkers demoEnv workingDb [("A", ["net1", "net2"])]
        [demoStat "0xA" 10 6 0, demoStat "0xB" 10 6 0, demoStat "0xC" 10 6 0]
        [("0xA", { Decentralized := [readyA 1, readyA 2], RSS := none, Federated := [] }),
         ("0xB", { Decentralized := [readyA 1], RSS := none, Federated := [] })] 7 []).workerList
      = [{ EpochID := 7, Address := "0xB", Network := "net1", Name := "Worker A",
           IsActive := true }] :=
  ⟨by decide, by decide,
   (updateNodeWorkers_workerList demoEnv workingDb [("A", ["net1", "net2"])]
      [demoStat "0xA" 10 6 0, demoStat "0xB" 10 6 0, demoStat "0xC" 10 6 0]
      [("0xA", { Decentralized := [readyA 1, readyA 2], RSS := none, Federated := [] }),
       ("0xB", { Decentralized := [readyA 1], RSS := none, Federated := [] })] 7 []
      (by decide) (by decide)).1,
   by decide⟩

/-! ## prepareMembers -/

/-- C15. Members to add: the add/update list of `prepareMembers` is, in the
order of the authoritative list, one member for each `Stat` whose
`EpochInvalidRequest` is below `model.DemotionCountBeforeSlashing`, with the
address as `Member` and the `Stat`'s `Score`; a `Stat` at or over the threshold
adds nothing. -/
theorem prepareMembers_membersToAdd (env : Env)
    (filterMembersToRemove : List Z → List (String × EndpointCache) → List String)
    (members : List Z) (nodesEndpointCachesMap : List (String × EndpointCache))
    (nodeStats : List Stat) :
    (prepareMembers env filterMembersToRemove members nodesEndpointCachesMap nodeStats).1
      = (nodeStats.filter (fun stat =>
          decide (stat.EpochInvalidRequest < env.DemotionCountBeforeSlashing))).map
          (fun stat => ({ Member := stat.Address, Score := stat.Score } : Z)) ∧
    List.Sublist
      ((prepareMembers env filterMembersToRemove members nodesEndpointCachesMap
        nodeStats).1.map Z.Member)
      (nodeStats.map Stat.Address) ∧
    (prepareMembers env filterMembersToRemove members nodesEndpointCachesMap
      nodeStats).1.length
      = nodeStats.countP (fun stat =>
          decide (stat.EpochInvalidRequest < env.DemotionCountBeforeSlashing)) := by
  rw [prepareMembers_fst]
  refine ⟨rfl, ?_, ?_⟩
  · rw [List.map_map]
    exact (List.filter_sublist _).map _
  · rw [List.length_map, List.countP_eq_length_filter]

/-! ## NodeStatus -/

theorem nodeStatusNameToValueMap_eq :
    NodeStatusNameToValueMap
      = [("registered", 0), ("online", 1), ("offline", 2), ("exiting", 3)] := by
  decide

theorem mapGet_nodeStatus (k : String) :
    mapGet NodeStatusNameToValueMap k =
      if "registered" = k then some 0 else if "online" = k then some 1
      else if "offline" = k then some 2 else if "exiting" = k then some 3 else none := by
  rw [nodeStatusNameToValueMap_eq]
  rfl

theorem mapGet_nodeStatus_some (k : String) (v : Int)
    (h : mapGet NodeStatusNameToValueMap k = some v) :
    k ∈ ["registered", "online", "offline", "exiting"] ∧ NodeStatus.String v = k ∧
      v ∈ NodeStatusValues := by
  rw [mapGet_nodeStatus] at h
  split at h
  · next hk => cases h; subst hk; decide
  · split at h
    · next hk => cases h; subst hk; decide
    · split at h
      · next hk => cases h; subst hk; decide
      · split at h
        · next hk => cases h; subst hk; decide
        · cases h

theorem mapGet_nodeStatus_none (k : String)
    (h : k ∉ ["registered", "online", "offline", "exiting"]) :
    mapGet NodeStatusNameToValueMap k = none := by
  simp only [List.mem_cons, List.mem_singleton, List.not_mem_nil, or_false, not_or] at h
  rw [mapGet_nodeStatus]
  have h1 : ¬ "registered" = k := fun e => h.1 e.symm
  have h2 : ¬ "online" = k := fun e => h.2.1 e.symm
  have h3 : ¬ "offline" = k := fun e => h.2.2.1 e.symm
  have h4 : ¬ "exiting" = k := fun e => h.2.2.2 e.symm
  simp only [h1, h2, h3, h4, if_false]

theorem mapGet_nodeStatus_mem (k : String)
    (h : k ∈ ["registered", "online", "offline", "exiting"]) :
    ∃ v, mapGet NodeStatusNameToValueMap k = some v := by
  cases hg : mapGet NodeStatusNameToValueMap k with
  | some v => exact ⟨v, rfl⟩
  | none =>
    exfalso
    simp only [List.mem_cons, List.mem_singleton, List.not_mem_nil, or_false] at h
    rw [mapGet_nodeStatus] at hg
    rcases h with h | h | h | h <;> subst h <;> simp at hg

/-- C16. Parsing inverts printing: with a lower-casing that leaves the four
names unchanged, `NodeStatusString` succeeds on `s` exactly when the lower-cased
`s` is one of `registered`, `online`, `offline`, `exiting`; the value it returns
prints as the lower-cased `s`; on every other string it returns its error; and
parsing the name of each of the four enum values gives that value back. -/
theorem NodeStatusString_inverts_String (toLower : String → String)
    (hlower : ∀ name ∈ ["registered", "online", "offline", "exiting"], toLower name = name)
    (s : String) :
    ((∃ v, NodeStatusString toLower s = Except.ok v) ↔
      toLower s ∈ ["registered", "online", "offline", "exiting"]) ∧
    (∀ v, NodeStatusString toLower s = Except.ok v → NodeStatus.String v = toLower s) ∧
    (toLower s ∉ ["registered", "online", "offline", "exiting"] →
      NodeStatusString toLower s = Except.error (s ++ " does not belong to NodeStatus values")) ∧
    (∀ v ∈ NodeStatusValues, NodeStatusString toLower (NodeStatus.String v) = Except.ok v) := by
  refine ⟨?_, ?_, ?_, ?_⟩
  · unfold NodeStatusString
    cases hs : mapGet NodeStatusNameToValueMap s with
    | some v =>
      have hk := (mapGet_nodeStatus_some s v hs).1
      rw [hlower s hk]
      exact ⟨fun _ => hk, fun _ => ⟨v, rfl⟩⟩
    | none =>
      cases hl : mapGet NodeStatusNameToValueMap (toLower s) with
      | some v => exact ⟨fun _ => (mapGet_nodeStatus_some _ v hl).1, fun _ => ⟨v, rfl⟩⟩
      | none =>
        constructor
        · rintro ⟨v, hv⟩
          cases hv
        · intro hmem
          obtain ⟨v, hv⟩ := mapGet_nodeStatus_mem _ hmem
          rw [hl] at hv
          cases hv
  · intro v hv
    unfold NodeStatusString at hv
    cases hs : mapGet NodeStatusNameToValueMap s with
    | some w =>
      rw [hs] at hv
      have hk := mapGet_nodeStatus_some s w hs
      rw [hlower s hk.1]
      have hvw : w = v := by injection hv
      rw [← hvw]
      exact hk.2.1
    | none =>
      rw [hs] at hv
      cases hl : mapGet NodeStatusNameToValueMap (toLower s) with
      | some w =>
        rw [hl] at hv
        have hvw : w = v := by injection hv
        rw [← hvw]
        exact (mapGet_nodeStatus_some _ w hl).2.1
      | none =>
        rw [hl] at hv
        cases hv
  · intro hnot
    unfold NodeStatusString
    have hl := mapGet_nodeStatus_none _ hnot
    cases hs : mapGet NodeStatusNameToValueMap s with
    | some w =>
      exfalso
      have hk := (mapGet_nodeStatus_some s w hs).1
      apply hnot
      rw [hlower s hk]
      exact hk
    | none => simp only [hl]
  · intro v hv
    have hget : mapGet NodeStatusNameToValueMap (NodeStatus.String v) = some v := by
      simp only [NodeStatusValues, List.mem_cons, List.mem_singleton, List.not_mem_nil,
        or_false] at hv
      rcases hv with h | h | h | h <;> subst h <;> decide
    unfold NodeStatusString
    rw [hget]

/-- C16, with the lower-casing of the letters `A` to `Z` and the string `OnLine`. -/
theorem NodeStatusString_inverts_String_witness :
    (∀ name ∈ ["registered", "online", "offline", "exiting"], asciiLower name = name) ∧
    NodeStatusString asciiLower "OnLine" = Except.ok 1 ∧
    NodeStatus.String 1 = asciiLower "OnLine" ∧
    NodeStatusString asciiLower "exited"
      = Except.error ("exited" ++ " does not belong to NodeStatus values") ∧
    ((∃ v, NodeStatusString asciiLower "OnLine" = Except.ok v) ↔
      asciiLower "OnLine" ∈ ["registered", "online", "offline", "exiting"]) :=
  ⟨by decide, rfl, by decide, rfl,
   (NodeStatusString_inverts_String asciiLower (by decide) "OnLine").1⟩

/-! ## The full-node check against the topology of the same cycle -/

theorem transformAndAssign_eq (m : List (String × List String)) : transformAndAssign m = m := by
  unfold transformAndAssign
  simp

theorem mapGet_of_mem_nodup {α : Type} (m : List (String × α)) (h : (m.map Prod.fst).Nodup)
    (entry : String × α) (he : entry ∈ m) : mapGet m entry.1 = some entry.2 := by
  induction m with
  | nil => simp at he
  | cons q t ih =>
    obtain ⟨k', v'⟩ := q
    rw [List.map_cons, List.nodup_cons] at h
    rcases List.mem_cons.1 he with he | he
    · subst he
      simp [mapGet]
    · have hne : ¬ k' = entry.1 := by
        intro e
        apply h.1
        have hk : entry.1 ∈ t.map Prod.fst := List.mem_map_of_mem Prod.fst he
        rw [e]
        exact hk
      simp only [mapGet, hne, if_false]
      exact ih h.2 he

theorem workerToNetworksOf_eq_addPairs (env : Env) (workers : List DecentralizedWorkerInfo) :
    workerToNetworksOf env (readyWorkers env workers)
      = addPairs [] (workers.flatMap (fullPairs env)) := by
  have hgen : ∀ (ws : List DecentralizedWorkerInfo) (m : List (String × List String)),
      (readyWorkers env ws).foldl
        (fun m w => bucketAdd m (renamedWorker env w) (env.networkString w.Network)) m
        = addPairs m (ws.flatMap (fullPairs env)) := by
    intro ws
    induction ws with
    | nil => intro m; rfl
    | cons w t ih =>
      intro m
      by_cases hs : w.Status = env.StatusReady
      · have hfilter : readyWorkers env (w :: t) = w :: readyWorkers env t := by
          simp [readyWorkers, hs]
        rw [hfilter, List.foldl_cons, ih, List.flatMap_cons, addPairs_append]
        simp [fullPairs, hs, addPairs]
      · have hfilter : readyWorkers env (w :: t) = readyWorkers env t := by
          simp [readyWorkers, hs]
        rw [hfilter, ih, List.flatMap_cons, addPairs_append]
        simp [fullPairs, hs, addPairs]
  exact hgen workers []

theorem mem_bucket_workerToNetworksOf (env : Env) (workers : List DecentralizedWorkerInfo)
    (w n : String) :
    n ∈ bucket (workerToNetworksOf env (readyWorkers env workers)) w ↔
      ∃ e ∈ workers, e.Status = env.StatusReady ∧ renamedWorker env e = w ∧
        env.networkString e.Network = n := by
  rw [workerToNetworksOf_eq_addPairs, mem_bucket_addPairs, mem_flatMap_fullPairs]
  simp [bucket_nil]

theorem slicesNonempty_bucketAdd (m : List (String × List String)) (k x : String)
    (h : SlicesNonempty m) : SlicesNonempty (bucketAdd m k x) := by
  have hadd : ∀ s : List String, setAdd s x ≠ [] := by
    intro s hs
    have hx : x ∈ setAdd s x := (mem_setAdd s x x).2 (Or.inl rfl)
    rw [hs] at hx
    exact List.not_mem_nil _ hx
  induction m with
  | nil =>
    intro entry he
    simp only [bucketAdd, List.mem_singleton] at he
    rw [he]
    exact hadd []
  | cons q t ih =>
    obtain ⟨k', s⟩ := q
    have ht : SlicesNonempty t := fun entry he => h entry (List.mem_cons_of_mem _ he)
    by_cases hk : k' = k
    · simp only [bucketAdd, hk, if_true]
      intro entry he
      rcases List.mem_cons.1 he with he | he
      · rw [he]; exact hadd s
      · exact ht entry he
    · simp only [bucketAdd, hk, if_false]
      intro entry he
      rcases List.mem_cons.1 he with he | he
      · rw [he]; exact h (k', s) (List.mem_cons_self _ _)
      · exact ih ht entry he

theorem slicesNonempty_addPairs (pairs : List (String × String)) :
    SlicesNonempty (addPairs [] pairs) := by
  have hgen : ∀ (l : List (String × String)) (m : List (String × List String)),
      SlicesNonempty m → SlicesNonempty (addPairs m l) := by
    intro l
    induction l with
    | nil => intro m h; exact h
    | cons p t ih =>
      intro m h
      exact ih _ (slicesNonempty_bucketAdd m p.1 p.2 h)
  exact hgen pairs [] (by intro e he; simp at he)

theorem publishedWorkerToNetworks_eq (env : Env) (polled : List (Stat × Option ComponentInfo)) :
    (mapTransformAssign (generateMaps env polled).2).WorkerToNetworksMap
      = addPairs [] ((entriesOfReports env (collectedReports polled)).flatMap (fullPairs env)) := by
  rw [generateMaps_maps_eq]
  simp only [mapTransformAssign, transformAndAssign_eq]

theorem bucket_of_mem_nodup (m : List (String × List String)) (h : (m.map Prod.fst).Nodup)
    (entry : String × List String) (he : entry ∈ m) : bucket m entry.1 = entry.2 := by
  unfold bucket
  rw [mapGet_of_mem_nodup m h entry he]
  rfl

/-- C17. Topology and full-node check agree: against the topology that
`generateMaps` and `mapTransformAssign` build from one report alone,
`determineFullNode` accepts the de-duplicated report; and against the topology
built from a whole fleet, the Ready worker-to-network sets of every collected
report lie inside the published sets, so that a report is rejected only when
some required network of some required worker is missing from it. -/
theorem determineFullNode_consistent_with_topology (env : Env)
    (polled : List (Stat × Option ComponentInfo)) (stat : Stat) (single data : ComponentInfo)
    (hdata : data ∈ collectedReports polled) :
    determineFullNode env
      (mapTransformAssign (generateMaps env [(stat, some single)]).2).WorkerToNetworksMap
      (filterDuplicateWorkers env single.Decentralized) = true ∧
    (∀ w n,
      n ∈ bucket (workerToNetworksOf env
        (readyWorkers env (filterDuplicateWorkers env data.Decentralized))) w →
      n ∈ bucket (mapTransformAssign (generateMaps env polled).2).WorkerToNetworksMap w) ∧
    (determineFullNode env (mapTransformAssign (generateMaps env polled).2).WorkerToNetworksMap
        (filterDuplicateWorkers env data.Decentralized) = false →
      ∃ entry ∈ (mapTransformAssign (generateMaps env polled).2).WorkerToNetworksMap,
        ∃ n ∈ entry.2, n ∉ bucket (workerToNetworksOf env
          (readyWorkers env (filterDuplicateWorkers env data.Decentralized))) entry.1) := by
  have hsubset : ∀ w n,
      n ∈ bucket (workerToNetworksOf env
        (readyWorkers env (filterDuplicateWorkers env data.Decentralized))) w →
      n ∈ bucket (mapTransformAssign (generateMaps env polled).2).WorkerToNetworksMap w := by
    intro w n hn
    rw [publishedWorkerToNetworks_eq, mem_bucket_addPairs, mem_flatMap_fullPairs]
    rw [mem_bucket_workerToNetworksOf] at hn
    obtain ⟨e, he, hs, hw, hnet⟩ := hn
    exact Or.inr ⟨e, (mem_entriesOfReports env _ e).2 ⟨data, hdata, he⟩, hs, hw, hnet⟩
  refine ⟨?_, hsubset, ?_⟩
  · have hT : (mapTransformAssign (generateMaps env [(stat, some single)]).2).WorkerToNetworksMap
        = workerToNetworksOf env
            (readyWorkers env (filterDuplicateWorkers env single.Decentralized)) := by
      rw [publishedWorkerToNetworks_eq, workerToNetworksOf_eq_addPairs]
      simp [collectedReports, entriesOfReports]
    rw [hT]
    have hpub : Published (workerToNetworksOf env
        (readyWorkers env (filterDuplicateWorkers env single.Decentralized))) := by
      rw [workerToNetworksOf_eq_addPairs]
      have := published_addPairs ((filterDuplicateWorkers env single.Decentralized).flatMap
        (fullPairs env))
      rwa [transformAndAssign_eq] at this
    rw [determineFullNode_eq_true_iff env _ _ hpub]
    intro entry hentry
    exact ⟨entry.2, mapGet_of_mem_nodup _ hpub.1 entry hentry, rfl, fun _ => Iff.rfl⟩
  · intro hfalse
    by_contra hnone
    have hall : ∀ entry ∈ (mapTransformAssign (generateMaps env polled).2).WorkerToNetworksMap,
        ∀ n ∈ entry.2, n ∈ bucket (workerToNetworksOf env
          (readyWorkers env (filterDuplicateWorkers env data.Decentralized))) entry.1 := by
      intro entry hentry n hn
      by_contra hmiss
      exact hnone ⟨entry, hentry, n, hn, hmiss⟩
    have hpub : Published (mapTransformAssign (generateMaps env polled).2).WorkerToNetworksMap := by
      rw [publishedWorkerToNetworks_eq]
      have := published_addPairs ((entriesOfReports env (collectedReports polled)).flatMap
        (fullPairs env))
      rwa [transformAndAssign_eq] at this
    have hnonempty : SlicesNonempty
        (mapTransformAssign (generateMaps env polled).2).WorkerToNetworksMap := by
      rw [publishedWorkerToNetworks_eq]
      exact slicesNonempty_addPairs _
    have htrue : determineFullNode env
        (mapTransformAssign (generateMaps env polled).2).WorkerToNetworksMap
        (filterDuplicateWorkers env data.Decentralized) = true := by
      rw [determineFullNode_eq_true_iff env _ _ hpub]
      intro entry hentry
      obtain ⟨n0, hn0⟩ := List.exists_mem_of_ne_nil _ (hnonempty entry hentry)
      have hin0 := hall entry hentry n0 hn0
      cases hg : mapGet (workerToNetworksOf env
          (readyWorkers env (filterDuplicateWorkers env data.Decentralized))) entry.1 with
      | none =>
        exfalso
        unfold bucket at hin0
        rw [hg] at hin0
        simp at hin0
      | some networks =>
        have hbucket : bucket (workerToNetworksOf env
            (readyWorkers env (filterDuplicateWorkers env data.Decentralized))) entry.1
            = networks := by
          unfold bucket; rw [hg]; rfl
        have hmem : ∀ n, n ∈ networks ↔ n ∈ entry.2 := by
          intro n
          constructor
          · intro hn
            have := hsubset entry.1 n (by rw [hbucket]; exact hn)
            rwa [bucket_of_mem_nodup _ hpub.1 entry hentry] at this
          · intro hn
            have := hall entry hentry n hn
            rwa [hbucket] at this
        have hnd : networks.Nodup := bucketsNodup_workerToNetworksOf env _ entry.1 networks hg
        have hperm : List.Perm networks entry.2 :=
          (List.perm_ext_iff_of_nodup hnd (hpub.2 entry hentry)).2 hmem
        exact ⟨networks, rfl, hperm.length_eq, hmem⟩
    rw [htrue] at hfalse
    cases hfalse

/-- C17, at a fleet of two nodes: `0xA` reports worker `A` on `net1`, `0xB` on
`net1` and `net2`. Alone, the report of `0xA` is full against its own topology;
in the fleet it is rejected, for the missing `net2`, and the report of `0xB` is
accepted. -/
theorem determineFullNode_consistent_with_topology_witness :
    ({ Decentralized := [readyA 1], RSS := none, Federated := [] } : ComponentInfo) ∈
      collectedReports
        [(demoStat "0xA" 10 6 0,
            some { Decentralized := [readyA 1], RSS := none, Federated := [] }),
          (demoStat "0xB" 10 6 0,
            some { Decentralized := [readyA 1, readyA 2], RSS := none, Federated := [] })] ∧
    determineFullNode demoEnv
      (mapTransformAssign (generateMaps demoEnv
        [(demoStat "0xA" 10 6 0,
          some { Decentralized := [readyA 1], RSS := none, Federated := [] })]).2).WorkerToNetworksMap
      (filterDuplicateWorkers demoEnv [readyA 1]) = true ∧
    determineFullNode demoEnv
      (mapTransformAssign (generateMaps demoEnv
        [(demoStat "0xA" 10 6 0,
            some { Decentralized := [readyA 1], RSS := none, Federated := [] }),
          (demoStat "0xB" 10 6 0,
            some { Decentralized := [readyA 1, readyA 2], RSS := none,
                   Federated := [] })]).2).WorkerToNetworksMap
      (filterDuplicateWorkers demoEnv [readyA 1]) = false ∧
    determineFullNode demoEnv
      (mapTransformAssign (generateMaps demoEnv
        [(demoStat "0xA" 10 6 0,
            some { Decentralized := [readyA 1], RSS := none, Federated := [] }),
          (demoStat "0xB" 10 6 0,
            some { Decentralized := [readyA 1, readyA 2], RSS := none,
                   Federated := [] })]).2).WorkerToNetworksMap
      (filterDuplicateWorkers demoEnv [readyA 1, readyA 2]) = true :=
  ⟨by decide,
   (determineFullNode_consistent_with_topology demoEnv
      [(demoStat "0xA" 10 6 0,
          some { Decentralized := [readyA 1], RSS := none, Federated := [] }),
        (demoStat "0xB" 10 6 0,
          some { Decentralized := [readyA 1, readyA 2], RSS := none, Federated := [] })]
      (demoStat "0xA" 10 6 0)
      { Decentralized := [readyA 1], RSS := none, Federated := [] }
      { Decentralized := [readyA 1], RSS := none, Federated := [] } (by decide)).1,
   by decide, by decide⟩

end Enforcer
